import Mathlib

/-!
Verification development for the SSH session manager in
`packages/desktop/src-tauri/src/remote_ssh.rs`.

Rust strings are modelled as `List Char` where character-level work
matters (the shell-word splitter, the SSH command parser, the version
extractor, the ssh_config import scanner) and as Lean `String`
elsewhere.  Rust byte indexing coincides with character indexing on the
ASCII inputs these functions handle; `Char.isWhitespace` stands in for
Rust `char::is_whitespace` (they agree on ASCII).  Fallible Rust
functions returning `anyhow::Result` are modelled with `Except String`,
carrying the exact error strings the source formats where a claim
depends on them.
-/

/-! ## Small character/string helpers -/

def trimChars (cs : List Char) : List Char :=
  ((cs.dropWhile Char.isWhitespace).reverse.dropWhile Char.isWhitespace).reverse

/-- Rust `str::trim` on a Lean `String` (kept kernel-reducible by going
through the character list). -/
def trimString (s : String) : String := String.mk (trimChars s.data)

/-- Rust `char::to_ascii_lowercase`. -/
def asciiLowerChar (c : Char) : Char :=
  if 'A' ≤ c && c ≤ 'Z' then Char.ofNat (c.toNat + 32) else c

/-- Rust `str::split_whitespace` (no empty tokens). -/
def splitWhitespaceAux : List Char → List Char → List (List Char)
  | [], current => if current.isEmpty then [] else [current]
  | c :: rest, current =>
    if c.isWhitespace then
      if current.isEmpty then splitWhitespaceAux rest []
      else current :: splitWhitespaceAux rest []
    else splitWhitespaceAux rest (current ++ [c])

def splitWhitespaceChars (cs : List Char) : List (List Char) :=
  splitWhitespaceAux cs []

/-! ## `split_shell_words` (remote_ssh.rs lines 701-739)

POSIX-ish shell splitting with single- and double-quote scopes and
backslash escapes (backslash disabled inside single quotes). -/

instance {ε α : Type} [DecidableEq ε] [DecidableEq α] : DecidableEq (Except ε α) := fun a b =>
  match a, b with
  | .ok x, .ok y => if h : x = y then .isTrue (by rw [h]) else .isFalse (by simp [h])
  | .error x, .error y => if h : x = y then .isTrue (by rw [h]) else .isFalse (by simp [h])
  | .ok _, .error _ => .isFalse (by simp)
  | .error _, .ok _ => .isFalse (by simp)

def splitWordsLoop : List Char → Bool → Bool → List Char → List (List Char) →
    Except String (List (List Char))
  | [], inSingle, inDouble, current, tokens =>
    if inSingle || inDouble then .error "Unclosed quote in SSH command"
    else if current.isEmpty then .ok tokens
    else .ok (tokens ++ [current])
  | c :: rest, inSingle, inDouble, current, tokens =>
    if c = '\\' && !inSingle then
      match rest with
      | [] => splitWordsLoop [] inSingle inDouble current tokens
      | next :: rest2 => splitWordsLoop rest2 inSingle inDouble (current ++ [next]) tokens
    else if c = '\'' && !inDouble then
      splitWordsLoop rest (!inSingle) inDouble current tokens
    else if c = '"' && !inSingle then
      splitWordsLoop rest inSingle (!inDouble) current tokens
    else if c.isWhitespace && !inSingle && !inDouble then
      if current.isEmpty then splitWordsLoop rest inSingle inDouble [] tokens
      else splitWordsLoop rest inSingle inDouble [] (tokens ++ [current])
    else splitWordsLoop rest inSingle inDouble (current ++ [c]) tokens

def split_shell_words (input : List Char) : Except String (List (List Char)) :=
  splitWordsLoop input false false [] []

/-! ## The SSH command parser (remote_ssh.rs lines 741-854) -/

def DISALLOWED_PRIMARY_FLAGS : List (List Char) :=
  (["-M", "-S", "-O", "-N", "-t", "-T", "-f", "-G", "-W", "-v", "-V", "-q", "-n", "-s", "-e",
    "-E", "-g"] : List String).map String.data

def is_disallowed_primary_flag (token : List Char) : Bool :=
  DISALLOWED_PRIMARY_FLAGS.contains token

def DISALLOWED_O_OPTION_KEYS : List (List Char) :=
  (["controlmaster", "controlpath", "controlpersist", "batchmode", "proxycommand"] :
    List String).map String.data

def has_disallowed_o_option (value : List Char) : Bool :=
  let lower := (trimChars value).map asciiLowerChar
  DISALLOWED_O_OPTION_KEYS.any (fun k => k.isPrefixOf lower)

def ALLOWED_FLAGS : List (List Char) :=
  (["-4", "-6", "-A", "-a", "-C", "-K", "-k", "-X", "-x", "-Y", "-y"] : List String).map
    String.data

def ALLOWED_WITH_VALUES : List (List Char) :=
  (["-B", "-b", "-c", "-D", "-F", "-I", "-i", "-J", "-l", "-m", "-o", "-P", "-p", "-R"] :
    List String).map String.data

structure DesktopSshParsedCommand where
  destination : List Char
  args : List (List Char)
deriving DecidableEq

/-- Outcome of the `for option in ALLOWED_WITH_VALUES` scan: the flag either
equals an allowed value-bearing option or has one as a proper prefix
(value glued to the flag). -/
inductive ValueFlagMatch where
  | exact (option : List Char)
  | glued (option : List Char)
deriving DecidableEq

def findValueFlagIn : List (List Char) → List Char → Option ValueFlagMatch
  | [], _ => none
  | o :: rest, token =>
    if token = o then some (.exact o)
    else if o.isPrefixOf token && o.length < token.length then some (.glued o)
    else findValueFlagIn rest token

/-- Per-token decision of the `parse_ssh_command` token loop (lines
787-844): either an error, or which tokens to consume — `bare` keeps the
flag alone, `withValue` keeps the flag plus the following value token,
`dst` makes the token the destination. -/
inductive TokenStep where
  | fail (msg : String)
  | bare
  | withValue
  | dst
deriving DecidableEq

def parseTokenStep (token : List Char) (rest : List (List Char))
    (dest : Option (List Char)) : TokenStep :=
  if dest.isSome then
    .fail ("SSH command has unsupported trailing argument: " ++ String.mk token)
  else if token.head? = some '-' then
    if is_disallowed_primary_flag token then
      .fail ("SSH option " ++ String.mk token ++ " is not allowed")
    else if ALLOWED_FLAGS.contains token then .bare
    else
      match findValueFlagIn ALLOWED_WITH_VALUES token with
      | some (.exact o) =>
        match rest with
        | [] => .fail ("SSH option " ++ String.mk o ++ " requires a value")
        | value :: _ =>
          if o = "-o".data && has_disallowed_o_option value then
            .fail ("SSH option -o " ++ String.mk value ++ " is not allowed")
          else .withValue
      | some (.glued o) =>
        if o = "-o".data && has_disallowed_o_option (token.drop o.length) then
          .fail ("SSH option -o " ++ String.mk (token.drop o.length) ++ " is not allowed")
        else .bare
      | none => .fail ("Unsupported SSH option: " ++ String.mk token)
  else .dst

/-- The token-consuming loop of `parse_ssh_command` (lines 787-844); the
per-token branching lives in `parseTokenStep`.  `parseTokenStep` answers
`withValue` only when `rest` is nonempty, so the inner `[]` arm below is
unreachable. -/
def parseTokensLoop : List (List Char) → Option (List Char) → List (List Char) →
    Except String (Option (List Char) × List (List Char))
  | [], dest, args => .ok (dest, args)
  | token :: rest, dest, args =>
    match parseTokenStep token rest dest with
    | .fail msg => .error msg
    | .bare => parseTokensLoop rest dest (args ++ [token])
    | .dst => parseTokensLoop rest (some token) args
    | .withValue =>
      match rest with
      | [] => .error ("SSH option " ++ String.mk token ++ " requires a value")
      | value :: rest2 => parseTokensLoop rest2 dest (args ++ [token, value])

def parse_ssh_command (raw : List Char) : Except String DesktopSshParsedCommand :=
  match split_shell_words raw with
  | .error e => .error e
  | .ok tokens0 =>
    if tokens0.isEmpty then .error "SSH command is empty"
    else
      let tokens := if tokens0.head? = some "ssh".data then tokens0.tail else tokens0
      if tokens.isEmpty then .error "SSH command must include destination"
      else
        match parseTokensLoop tokens none [] with
        | .error e => .error e
        | .ok (dest?, args) =>
          match dest? with
          | none => .error "SSH command must include destination"
          | some d =>
            let d := trimChars d
            if d.isEmpty then .error "SSH command must include destination"
            else .ok ⟨d, args⟩

/-! ## Version-token extraction (remote_ssh.rs lines 1141-1159) -/

def isVersionPunct (c : Char) : Bool := c = ',' || c = ')' || c = '('

/-- The `while candidate.ends_with ...` popping loop. -/
def dropTrailingVersionPuncts (cs : List Char) : List Char :=
  (cs.reverse.dropWhile isVersionPunct).reverse

/-- Rust `str::split('.')`. -/
def splitOnDot : List Char → List (List Char)
  | [] => [[]]
  | c :: rest =>
    if c = '.' then [] :: splitOnDot rest
    else
      match splitOnDot rest with
      | [] => [[c]]
      | p :: ps => (c :: p) :: ps

/-- The per-token body of `parse_version_token` after the leading `v`s
have been stripped: pop trailing `,)(` characters, split on `.`, demand
at least two nonempty all-digit parts. -/
def versionCandidateCore (afterV : List Char) : Option (List Char) :=
  let candidate := dropTrailingVersionPuncts afterV
  let parts := splitOnDot candidate
  if parts.length < 2 then none
  else if parts.all (fun p => !p.isEmpty && p.all Char.isDigit) then some candidate
  else none

/-- The per-token body of `parse_version_token`
(`token.trim().trim_start_matches('v')` then the digit checks). -/
def versionTokenCandidate (token : List Char) : Option (List Char) :=
  versionCandidateCore ((trimChars token).dropWhile (fun c => c = 'v'))

def parse_version_token (raw : List Char) : Option (List Char) :=
  (splitWhitespaceChars raw).findSome? versionTokenCandidate

/-! ## Remote HTTP probe liveness decision (remote_ssh.rs lines 1240-1320)

`probe_remote_system_info` runs a remote script that reports
`INFO_STATUS`, `AUTH_STATUS` and `HEALTH_STATUS`; the Rust decision tree
over those three codes and the configured-password flag is modelled
here, with each `anyhow` failure mapped to a named outcome. -/

def is_auth_http_status (status : Nat) : Bool := status = 401 || status = 403

def is_liveness_http_status (status : Nat) : Bool :=
  (200 ≤ status && status ≤ 299) || is_auth_http_status status

inductive RemoteProbeOutcome where
  /-- `Ok(...)`: the probe reports the remote service live. -/
  | ok
  /-- "Remote OpenChamber requires UI authentication and configured password
  was rejected (auth status ...)" -/
  | authRejected (authStatus : Nat)
  /-- "Remote OpenChamber requires UI authentication on /api/system/info;
  configure OpenChamber UI password" -/
  | authRequired
  /-- "Remote OpenChamber probe failed (info status ..., health status ...)" -/
  | probeFailed (infoStatus healthStatus : Nat)
deriving DecidableEq

def probe_liveness_decision (infoStatus authStatus healthStatus : Nat)
    (passwordConfigured : Bool) : RemoteProbeOutcome :=
  if is_liveness_http_status infoStatus then
    if is_auth_http_status infoStatus then
      if passwordConfigured && authStatus ≠ 200 then .authRejected authStatus
      else if is_liveness_http_status healthStatus then .ok
      else .authRequired
    else .ok
  else if is_liveness_http_status healthStatus then .ok
  else .probeFailed infoStatus healthStatus

/-! ## ssh_config import (remote_ssh.rs lines 1579-1619, 2754-2770) -/

structure DesktopSshImportCandidate where
  host : String
  pattern : Bool
  source : String
  sshCommand : String
deriving DecidableEq

/-- `line.split('#').next()`: the segment before the first `#`. -/
def configLineBeforeHash (cs : List Char) : List Char :=
  cs.takeWhile (fun c => c ≠ '#')

/-- Host tokens emitted by one ssh_config line (the per-line body of
`parse_ssh_config_candidates`). -/
def configLineHosts (line : List Char) : List (List Char) :=
  let trimmed := trimChars (configLineBeforeHash line)
  if trimmed.isEmpty then []
  else if trimmed.length < 4 then []
  else if ¬((trimmed.take 4).map asciiLowerChar = "host".data) then []
  else
    let rest := trimChars (trimmed.drop 4)
    if rest.isEmpty then []
    else
      (splitWhitespaceChars rest).filterMap (fun tok =>
        let host := trimChars tok
        if host.isEmpty then none
        else if host.head? = some '!' then none
        else if host = "*".data then none
        else some host)

def parse_ssh_config_candidates (lines : List (List Char)) (source : String) :
    List DesktopSshImportCandidate :=
  (lines.map (fun line => (configLineHosts line).map (fun host =>
    { host := String.mk host
      pattern := host.contains '*' || host.contains '?'
      source := source
      sshCommand := "ssh " ++ String.mk host : DesktopSshImportCandidate }))).flatten

/-- `candidates.retain(|item| seen.insert(item.host.clone()))`: keep the
first candidate for each host. -/
def dedupeByHostAux : List String → List DesktopSshImportCandidate →
    List DesktopSshImportCandidate
  | _, [] => []
  | seen, c :: rest =>
    if seen.contains c.host then dedupeByHostAux seen rest
    else c :: dedupeByHostAux (c.host :: seen) rest

/-- Rust `String::cmp` (lexicographic by code point, which equals byte
order on UTF-8). -/
def charListLt : List Char → List Char → Bool
  | [], [] => false
  | [], _ :: _ => true
  | _ :: _, [] => false
  | a :: as, b :: bs => if a < b then true else if b < a then false else charListLt as bs

def insertByHost (c : DesktopSshImportCandidate) : List DesktopSshImportCandidate →
    List DesktopSshImportCandidate
  | [] => [c]
  | d :: rest =>
    if charListLt d.host.data c.host.data then d :: insertByHost c rest else c :: d :: rest

def sortByHost : List DesktopSshImportCandidate → List DesktopSshImportCandidate
  | [] => []
  | c :: rest => insertByHost c (sortByHost rest)

/-- `desktop_ssh_import_hosts`, abstracted over the two config files'
line lists (user `~/.ssh/config` first, then `/etc/ssh/ssh_config`). -/
def desktop_ssh_import_hosts (userLines globalLines : List (List Char)) :
    List DesktopSshImportCandidate :=
  sortByHost (dedupeByHostAux []
    (parse_ssh_config_candidates userLines "user" ++
      parse_ssh_config_candidates globalLines "global"))

/-! ## Instance configuration and sanitization (remote_ssh.rs lines 16-22, 404-510) -/

def LOCAL_HOST_ID : String := "local"

def DEFAULT_CONNECTION_TIMEOUT_SEC : Nat := 60

def DEFAULT_LOCAL_BIND_HOST : String := "127.0.0.1"

def DEFAULT_RECONNECT_MAX_ATTEMPTS : Nat := 5

def MAX_LOG_LINES_PER_INSTANCE : Nat := 1200

inductive DesktopSshRemoteMode where
  | Managed
  | External
deriving DecidableEq

inductive DesktopSshInstallMethod where
  | Npm
  | Bun
  | DownloadRelease
  | UploadBundle
deriving DecidableEq

structure DesktopSshRemoteOpenchamberConfig where
  mode : DesktopSshRemoteMode
  keepRunning : Bool
  preferredPort : Option Nat
  installMethod : DesktopSshInstallMethod
  uploadBundleOverSsh : Bool
deriving DecidableEq

inductive DesktopSshSecretStore where
  | Never
  | Settings
deriving DecidableEq

structure DesktopSshStoredSecret where
  enabled : Bool
  value : Option String
  store : DesktopSshSecretStore
deriving DecidableEq

structure DesktopSshAuthConfig where
  sshPassword : Option DesktopSshStoredSecret
  openchamberPassword : Option DesktopSshStoredSecret
deriving DecidableEq

inductive DesktopSshPortForwardType where
  | Local
  | Remote
  | Dynamic
deriving DecidableEq

structure DesktopSshPortForward where
  id : String
  enabled : Bool
  forwardType : DesktopSshPortForwardType
  localHost : Option String
  localPort : Option Nat
  remoteHost : Option String
  remotePort : Option Nat
deriving DecidableEq

structure DesktopSshInstance where
  id : String
  nickname : Option String
  sshCommand : String
  sshParsed : Option DesktopSshParsedCommand
  connectionTimeoutSec : Nat
  remoteOpenchamber : DesktopSshRemoteOpenchamberConfig
  localForwardPreferredLocalPort : Option Nat
  localForwardBindHost : String
  auth : DesktopSshAuthConfig
  portForwards : List DesktopSshPortForward
deriving DecidableEq

def sanitize_bind_host (raw : String) : String :=
  let trimmed := trimString raw
  if trimmed.isEmpty then DEFAULT_LOCAL_BIND_HOST
  else if trimmed = "127.0.0.1" || trimmed = "localhost" || trimmed = "0.0.0.0" then trimmed
  else DEFAULT_LOCAL_BIND_HOST

def blankString (s : Option String) : Bool :=
  (trimString (s.getD "")).isEmpty

def sanitize_forward (forward : DesktopSshPortForward) : Option DesktopSshPortForward :=
  let id := trimString forward.id
  if id.isEmpty then none
  else
    let normalized := { forward with
      id := id
      localHost := some (match forward.localHost with
        | some v => sanitize_bind_host v
        | none => DEFAULT_LOCAL_BIND_HOST) }
    match normalized.forwardType with
    | .Local =>
      if normalized.localPort.isNone || normalized.remotePort.isNone then none
      else if blankString normalized.remoteHost then
        some { normalized with remoteHost := some "127.0.0.1" }
      else some normalized
    | .Remote =>
      if normalized.localPort.isNone || normalized.remotePort.isNone then none
      else
        let normalized := if blankString normalized.remoteHost then
          { normalized with remoteHost := some "127.0.0.1" } else normalized
        let normalized := if blankString normalized.localHost then
          { normalized with localHost := some "127.0.0.1" } else normalized
        some normalized
    | .Dynamic =>
      if normalized.localPort.isNone then none
      else some { normalized with remoteHost := none, remotePort := none }

def sanitizeForwardsLoop : List DesktopSshPortForward → List String →
    List DesktopSshPortForward
  | [], _ => []
  | forward :: rest, seen =>
    match sanitize_forward forward with
    | none => sanitizeForwardsLoop rest seen
    | some normalized =>
      if seen.contains normalized.id then sanitizeForwardsLoop rest seen
      else normalized :: sanitizeForwardsLoop rest (normalized.id :: seen)

def sanitize_instance (instance0 : DesktopSshInstance) : Except String DesktopSshInstance :=
  let id := trimString instance0.id
  if id.isEmpty || id = LOCAL_HOST_ID then .error "SSH instance id is required"
  else
    let sshCommand := trimString instance0.sshCommand
    if sshCommand.isEmpty then .error "SSH command is required"
    else
      let timeout := if instance0.connectionTimeoutSec = 0 then
        DEFAULT_CONNECTION_TIMEOUT_SEC else instance0.connectionTimeoutSec
      let bindHost := sanitize_bind_host instance0.localForwardBindHost
      match parse_ssh_command sshCommand.data with
      | .error e => .error e
      | .ok parsed =>
        .ok { instance0 with
          id := id
          sshCommand := sshCommand
          connectionTimeoutSec := timeout
          localForwardBindHost := bindHost
          sshParsed := some parsed
          portForwards := sanitizeForwardsLoop instance0.portForwards [] }

/-- The sanitize/dedupe loop of `write_desktop_ssh_instances_to_path`
(lines 604-614): the `?` on `sanitize_instance` propagates the first
failure and aborts the whole write. -/
def sanitizeInstancesLoop : List DesktopSshInstance → List String →
    Except String (List DesktopSshInstance)
  | [], _ => .ok []
  | inst :: rest, seen =>
    match sanitize_instance inst with
    | .error e => .error e
    | .ok normalized =>
      if seen.contains normalized.id then sanitizeInstancesLoop rest seen
      else
        match sanitizeInstancesLoop rest (normalized.id :: seen) with
        | .error e => .error e
        | .ok tail => .ok (normalized :: tail)

/-! ## Hosts-list synchronization (remote_ssh.rs lines 340-356, 512-623)

A `desktopHosts` entry is an arbitrary JSON object; the fields the sync
code reads or writes are modelled (`id`, `label`, `url`, each possibly
absent). -/

structure HostEntry where
  id : Option String
  label : Option String
  url : Option String
deriving DecidableEq

def hostEntryId (h : HostEntry) : String := trimString (h.id.getD "")

def build_display_label (inst : DesktopSshInstance) : String :=
  let nick := trimString (inst.nickname.getD "")
  if !nick.isEmpty then nick
  else
    match inst.sshParsed with
    | some parsed =>
      let destination := trimChars parsed.destination
      if !destination.isEmpty then String.mk destination else inst.id
    | none => inst.id

/-- The `hosts.retain(...)` step: drop entries with a blank id and
entries whose id was present before and is absent now. -/
def syncRetainHosts (previousIds nextIds : List String) (hosts : List HostEntry) :
    List HostEntry :=
  hosts.filter (fun h =>
    let hid := hostEntryId h
    !hid.isEmpty && !(previousIds.contains hid && !(nextIds.contains hid)))

def updateHostForInstance (inst : DesktopSshInstance) (h : HostEntry) : HostEntry :=
  { id := some inst.id
    label := some (build_display_label inst)
    url := if blankString h.url then some "http://127.0.0.1/" else h.url }

def newHostForInstance (inst : DesktopSshInstance) : HostEntry :=
  { id := some inst.id
    label := some (build_display_label inst)
    url := some "http://127.0.0.1/" }

/-- The per-instance pass over the hosts list: update the first entry
whose (trimmed) id matches, else push a fresh entry at the end. -/
def upsertHostForInstance (inst : DesktopSshInstance) : List HostEntry → List HostEntry
  | [] => [newHostForInstance inst]
  | h :: rest =>
    if hostEntryId h = inst.id then updateHostForInstance inst h :: rest
    else h :: upsertHostForInstance inst rest

structure SettingsRoot where
  desktopSshInstances : List DesktopSshInstance
  desktopHosts : List HostEntry
  desktopDefaultHostId : Option String
deriving DecidableEq

def sync_desktop_hosts_for_ssh (root : SettingsRoot) (previousIds : List String)
    (instances : List DesktopSshInstance) : SettingsRoot :=
  let nextIds := instances.map (fun i => i.id)
  let hosts0 := syncRetainHosts previousIds nextIds root.desktopHosts
  let hosts1 := instances.foldl (fun hs inst => upsertHostForInstance inst hs) hosts0
  let defaultId := trimString (root.desktopDefaultHostId.getD "")
  let defaultHostId :=
    if !defaultId.isEmpty && previousIds.contains defaultId && !(nextIds.contains defaultId)
    then some LOCAL_HOST_ID else root.desktopDefaultHostId
  { root with desktopHosts := hosts1, desktopDefaultHostId := defaultHostId }

/-- `write_desktop_ssh_instances_to_path`: sanitize/dedupe the incoming
list (any failure aborts), sync the hosts list against the previously
stored ids, persist the sanitized list. -/
def write_desktop_ssh_instances (root : SettingsRoot) (incoming : List DesktopSshInstance) :
    Except String SettingsRoot :=
  let previousIds := root.desktopSshInstances.map (fun i => i.id)
  match sanitizeInstancesLoop incoming [] with
  | .error e => .error e
  | .ok sanitized =>
    let root1 := sync_desktop_hosts_for_ssh root previousIds sanitized
    .ok { root1 with desktopSshInstances := sanitized }

/-! ## Session liveness (remote_ssh.rs lines 1781-1873) and the monitor
check (lines 2356-2467)

The environment oracles capture what the external probes would report:
`try_wait` on a child handle, the `-O check` control-master operation,
and the 500 ms TCP connect to `127.0.0.1:localPort`. -/

/-- Result of `child.try_wait().ok().flatten()`: still running (or the
wait itself failed), or exited with/without a success status. -/
inductive ChildExit where
  | running
  | exited (success : Bool)
deriving DecidableEq

structure SshSessionFlags where
  masterDetached : Bool
  mainForwardDetached : Bool
deriving DecidableEq

structure SessionProbeEnv where
  mainForwardExit : ChildExit
  masterExit : ChildExit
  controlMasterAliveCheck : Bool
  localTunnelReachable : Bool
deriving DecidableEq

/-- The master-liveness tail of `session_is_alive` (lines 1826-1872),
reached only when the anchor forward is not conclusively alive. -/
def sessionMasterCheck (flags : SshSessionFlags) (env : SessionProbeEnv) :
    Bool × SshSessionFlags :=
  if flags.masterDetached then
    if !env.controlMasterAliveCheck then
      if env.localTunnelReachable then (true, flags) else (false, flags)
    else (true, flags)
  else
    match env.masterExit with
    | .exited st =>
      if st && env.controlMasterAliveCheck then (true, { flags with masterDetached := true })
      else (false, flags)
    | .running => (true, flags)

/-- `session_is_alive` for an existing session: returns the verdict and
the updated detach flags. -/
def session_is_alive (flags : SshSessionFlags) (env : SessionProbeEnv) :
    Bool × SshSessionFlags :=
  if flags.mainForwardDetached then sessionMasterCheck flags env
  else
    match env.mainForwardExit with
    | .exited true => sessionMasterCheck { flags with mainForwardDetached := true } env
    | .exited false => (false, flags)
    | .running => (true, flags)

/-- One liveness pass of the monitor loop body (lines 2359-2466):
`(droppedReason, detachedNotice, updated flags)`.  The Rust messages
interpolate the child exit status and stderr; those suffixes are elided
except for the exact reason strings a transition is keyed on. -/
def monitor_liveness_check (flags : SshSessionFlags) (env : SessionProbeEnv) :
    Option String × Option String × SshSessionFlags :=
  let (anchorAlive, dropped1, notice1, flags1) :=
    if flags.mainForwardDetached then
      (false, (none : Option String), (none : Option String), flags)
    else
      match env.mainForwardExit with
      | .exited true =>
        (false, none, some "Main tunnel helper exited after ControlMaster handoff",
          { flags with mainForwardDetached := true })
      | .exited false => (false, some "Main SSH forward exited", none, flags)
      | .running => (true, none, none, flags)
  if dropped1.isSome then (dropped1, notice1, flags1)
  else if anchorAlive then
    if !flags1.masterDetached then
      match env.masterExit with
      | .exited st =>
        if st && env.controlMasterAliveCheck then
          (none,
            (if notice1.isNone then
              some "SSH ControlMaster transitioned to detached background mode" else notice1),
            { flags1 with masterDetached := true })
        else (none, some "SSH ControlMaster exited while main tunnel is still active", flags1)
      | .running => (none, notice1, flags1)
    else if !env.controlMasterAliveCheck then
      (none, some "SSH ControlMaster is not reachable; main tunnel remains active", flags1)
    else (none, notice1, flags1)
  else if flags1.masterDetached then
    if !env.controlMasterAliveCheck then
      if env.localTunnelReachable then
        (none,
          (if notice1.isNone then
            some "SSH ControlMaster check failed but local tunnel is still reachable"
          else notice1), flags1)
      else (some "SSH ControlMaster is not reachable", notice1, flags1)
    else (none, notice1, flags1)
  else
    match env.masterExit with
    | .exited st =>
      if st && env.controlMasterAliveCheck then
        (none,
          (if notice1.isNone then
            some "SSH ControlMaster transitioned to detached background mode" else notice1),
          { flags1 with masterDetached := true })
      else (some "SSH ControlMaster exited", notice1, flags1)
    | .running => (none, notice1, flags1)

/-! ## Retry bookkeeping and the monitor drop handler
(remote_ssh.rs lines 190-204, 1726-1747, 1875-1922, 2473-2535) -/

inductive DesktopSshPhase where
  | Idle
  | ConfigResolved
  | AuthCheck
  | MasterConnecting
  | RemoteProbe
  | Installing
  | Updating
  | ServerDetecting
  | ServerStarting
  | Forwarding
  | Ready
  | Degraded
  | Error
deriving DecidableEq

/-- Per-instance supervisor state touched by the monitor's drop handling:
whether a session object exists, the `reconnect_attempts` map entry, and
the last published status fields the claims mention.  `u32` counters are
modelled as `Nat` (`saturating_add` never saturates below `2^32`). -/
structure MonitorRetryState where
  sessionPresent : Bool
  reconnectAttempt : Option Nat
  phase : DesktopSshPhase
  retryAttemptStatus : Nat
  requiresUserAction : Bool
deriving DecidableEq

def clear_retry_attempt (s : MonitorRetryState) : MonitorRetryState :=
  { s with reconnectAttempt := none }

def next_retry_attempt (s : MonitorRetryState) : Nat × MonitorRetryState :=
  let next := s.reconnectAttempt.getD 0 + 1
  (next, { s with reconnectAttempt := some next })

/-- `disconnect_internal`: cancels tasks, tears the session down, clears
the retry counter, optionally publishes `Idle`. -/
def disconnect_internal (s : MonitorRetryState) (reportIdle : Bool) : MonitorRetryState :=
  let s1 := clear_retry_attempt { s with sessionPresent := false }
  if reportIdle then
    { s1 with phase := .Idle, retryAttemptStatus := 0, requiresUserAction := false }
  else s1

structure MonitorDropResult where
  state : MonitorRetryState
  /-- `none` when the Error branch is taken and the loop stops retrying. -/
  delayMs : Option Nat
deriving DecidableEq

/-- The drop-handling tail of the monitor loop (lines 2481-2519):
disconnect without reporting Idle, bump the retry counter, then either
give up with Error or publish Degraded and sleep
`min(2^(attempt-1)*1000, 30000) + (now_millis() % 700 + 100)` ms. -/
def monitor_handle_drop (s : MonitorRetryState) (nowMs : Nat) : MonitorDropResult :=
  let s1 := disconnect_internal s false
  let (attempt, s2) := next_retry_attempt s1
  if attempt > DEFAULT_RECONNECT_MAX_ATTEMPTS then
    { state :=
        { s2 with phase := .Error, retryAttemptStatus := attempt, requiresUserAction := true },
      delayMs := none }
  else
    let delayMs := 2 ^ (attempt - 1) * 1000
    let jitter := nowMs % 700 + 100
    { state :=
        { s2 with
            phase := .Degraded
            retryAttemptStatus := attempt
            requiresUserAction := false },
      delayMs := some (min delayMs 30000 + jitter) }

/-! ## Public command guards (remote_ssh.rs lines 2674-2699, 2772-2797)

Each command trims the incoming id and rejects the empty and reserved
values before doing anything else; the work performed on a valid id is
abstracted as an explicit continuation acting on an abstract manager
state `σ`. -/

def desktop_ssh_connect {σ : Type} (startConnect : String → σ → Except String Unit × σ)
    (s : σ) (id : String) : Except String Unit × σ :=
  let id := trimString id
  if id.isEmpty || id = LOCAL_HOST_ID then (.error "SSH instance id is required", s)
  else startConnect id s

def desktop_ssh_disconnect {σ : Type} (disconnectInternal : String → σ → σ)
    (s : σ) (id : String) : Except String Unit × σ :=
  let id := trimString id
  if id.isEmpty || id = LOCAL_HOST_ID then (.error "SSH instance id is required", s)
  else (.ok (), disconnectInternal id s)

def desktop_ssh_logs {σ : Type} (logsForInstance : String → Nat → σ → List String)
    (s : σ) (id : String) (limit : Option Nat) : Except String (List String) × σ :=
  let id := trimString id
  if id.isEmpty || id = LOCAL_HOST_ID then (.error "SSH instance id is required", s)
  else (.ok (logsForInstance id (min (limit.getD 200) MAX_LOG_LINES_PER_INSTANCE) s), s)

def desktop_ssh_logs_clear {σ : Type} (clearLogsForInstance : String → σ → σ)
    (s : σ) (id : String) : Except String Unit × σ :=
  let id := trimString id
  if id.isEmpty || id = LOCAL_HOST_ID then (.error "SSH instance id is required", s)
  else (.ok (), clearLogsForInstance id s)

/-! ## A regex-style matcher for the version pattern

Specification-side counterpart of `versionCandidateCore`, written as a
left-to-right matcher for `v* \d+ (\.\d+)+ [,)(]*` over the whole
token: strip the `v*` run, consume `\d+`, consume `(\.\d+)+` greedily
(`dotGroups`), and require that only `[,)(]` characters remain. -/

def joinGroups : List (List Char) → List Char
  | [] => []
  | ds :: rest => '.' :: ds ++ joinGroups rest

def joinDots : List (List Char) → List Char
  | [] => []
  | [p] => p
  | p :: rest => p ++ '.' :: joinDots rest

def dotGroups : List Char → List Char × List Char
  | '.' :: rest =>
    let ds := rest.takeWhile Char.isDigit
    if ds.isEmpty then ([], '.' :: rest)
    else
      let gr := dotGroups (rest.drop ds.length)
      ('.' :: ds ++ gr.1, gr.2)
  | cs => ([], cs)
termination_by cs => cs.length
decreasing_by simp [List.length_drop]; omega

def regexTailMatch (afterV : List Char) : Option (List Char) :=
  let ds := afterV.takeWhile Char.isDigit
  if ds.isEmpty then none
  else
    let gr := dotGroups (afterV.drop ds.length)
    if gr.1.isEmpty then none
    else if (gr.2.dropWhile isVersionPunct).isEmpty then some (ds ++ gr.1)
    else none

def regexVersionMatch (token : List Char) : Option (List Char) :=
  regexTailMatch (token.dropWhile (fun c => c = 'v'))

/-! ## Re-serialization of a parsed SSH command (spec section 8,
"Parser closure"): `ssh <args...> <destination>` joined by single
spaces. -/

def joinSpaced : List (List Char) → List Char
  | [] => []
  | t :: rest => ' ' :: t ++ joinSpaced rest

def joinTokens : List (List Char) → List Char
  | [] => []
  | t :: rest => t ++ joinSpaced rest

def reserialize_ssh_command (parsed : DesktopSshParsedCommand) : List Char :=
  joinTokens ("ssh".data :: (parsed.args ++ [parsed.destination]))

/-- A character that survives shell splitting unchanged: not whitespace,
not a quote, not a backslash. -/
def plainChar (c : Char) : Bool :=
  !c.isWhitespace && !(c = '\'') && !(c = '"') && !(c = '\\')

/-- The shapes of argument lists `parse_ssh_command` can emit: a
whitelisted bare flag, an allowed value-bearing flag followed by its
value token, or a glued flag+value token, each having passed the same
checks the parser applies. -/
inductive ArgsOk : List (List Char) → Prop where
  | nil : ArgsOk []
  | bare (t : List Char) (rest : List (List Char)) :
      is_disallowed_primary_flag t = false → ALLOWED_FLAGS.contains t = true →
      ArgsOk rest → ArgsOk (t :: rest)
  | exactVal (t v : List Char) (rest : List (List Char)) (o : List Char) :
      is_disallowed_primary_flag t = false → ALLOWED_FLAGS.contains t = false →
      findValueFlagIn ALLOWED_WITH_VALUES t = some (.exact o) →
      ¬(o = "-o".data ∧ has_disallowed_o_option v = true) →
      ArgsOk rest → ArgsOk (t :: v :: rest)
  | glued (t : List Char) (rest : List (List Char)) (o : List Char) :
      is_disallowed_primary_flag t = false → ALLOWED_FLAGS.contains t = false →
      findValueFlagIn ALLOWED_WITH_VALUES t = some (.glued o) →
      ¬(o = "-o".data ∧ has_disallowed_o_option (t.drop o.length) = true) →
      ArgsOk rest → ArgsOk (t :: rest)

/-! ## Claim theorems -/

/-- C1: the spec says the k-th consecutive drop enters Degraded with
`retryAttempt = k`, sleeps at least `2^(k-1)` seconds, and the fifth
failure ends in Error with `requiresUserAction = true`.  The code's drop
handler calls `disconnect_internal` (which clears the retry counter)
immediately before `next_retry_attempt`, so every drop — whatever the
prior state — yields attempt 1, phase Degraded, and a sleep of
`1100 + now % 700` ms; the Error branch at the retry cap is unreachable
from the monitor. -/
theorem c1_every_drop_resets_retry_attempt (s : MonitorRetryState) (nowMs : Nat) :
    (monitor_handle_drop s nowMs).state.phase = DesktopSshPhase.Degraded ∧
    (monitor_handle_drop s nowMs).state.retryAttemptStatus = 1 ∧
    (monitor_handle_drop s nowMs).state.reconnectAttempt = some 1 ∧
    (monitor_handle_drop s nowMs).delayMs = some (1100 + nowMs % 700) := by
  simp [monitor_handle_drop, disconnect_internal, clear_retry_attempt, next_retry_attempt,
    DEFAULT_RECONNECT_MAX_ATTEMPTS]
  omega

/-- C2: for a session whose anchor forward is not conclusively alive
(already detached, or its child just exited successfully): a master
child success-exit plus a succeeding `-O check` sets `masterDetached`
and reports the session alive; with `masterDetached` set, a failing
`-O check` still reports alive if the local TCP probe succeeds; with
the TCP probe also failing, the session is dead and the monitor's drop
reason is the ControlMasterLost message. -/
theorem c2_detach_liveness (flags : SshSessionFlags) (env : SessionProbeEnv)
    (hanchor : flags.mainForwardDetached = true ∨
      (flags.mainForwardDetached = false ∧ env.mainForwardExit = ChildExit.exited true)) :
    ((flags.masterDetached = false ∧ env.masterExit = ChildExit.exited true ∧
        env.controlMasterAliveCheck = true) →
      (session_is_alive flags env).1 = true ∧
        (session_is_alive flags env).2.masterDetached = true ∧
        (monitor_liveness_check flags env).1 = none ∧
        (monitor_liveness_check flags env).2.2.masterDetached = true) ∧
    ((flags.masterDetached = true ∧ env.controlMasterAliveCheck = false ∧
        env.localTunnelReachable = true) →
      (session_is_alive flags env).1 = true ∧
        (monitor_liveness_check flags env).1 = none) ∧
    ((flags.masterDetached = true ∧ env.controlMasterAliveCheck = false ∧
        env.localTunnelReachable = false) →
      (session_is_alive flags env).1 = false ∧
        (monitor_liveness_check flags env).1 = some "SSH ControlMaster is not reachable") := by
  obtain ⟨md, mfd⟩ := flags
  obtain ⟨mfe, me, check, tcp⟩ := env
  rcases hanchor with h | ⟨h1, h2⟩ <;>
    simp_all [session_is_alive, sessionMasterCheck, monitor_liveness_check]

theorem c2_detach_liveness_witness :
    (session_is_alive ⟨true, true⟩ ⟨.running, .running, false, false⟩).1 = false ∧
    (monitor_liveness_check ⟨true, true⟩ ⟨.running, .running, false, false⟩).1 =
      some "SSH ControlMaster is not reachable" :=
  (c2_detach_liveness ⟨true, true⟩ ⟨.running, .running, false, false⟩
    (Or.inl rfl)).2.2 ⟨rfl, rfl, rfl⟩

/-- C3 counterexample: with `INFO_STATUS = 401`, a configured password,
`AUTH_STATUS = 200` (so the RemoteAuthRejected clause does not apply)
and `HEALTH_STATUS = 500`, the claim's "liveness OK ⇔ INFO_STATUS is
2xx or 401/403" says the probe succeeds, but the code fails with the
RemoteAuthRequired error. -/
theorem c3_counterexample :
    is_liveness_http_status 401 = true ∧ is_auth_http_status 401 = true ∧
    probe_liveness_decision 401 200 500 true ≠ RemoteProbeOutcome.ok ∧
    probe_liveness_decision 401 200 500 true = RemoteProbeOutcome.authRequired := by
  decide

/-- C3 amended: the probe succeeds iff `INFO_STATUS` is 2xx, or
`INFO_STATUS` is 401/403 and `/health` is itself live and no configured
password was rejected, or `INFO_STATUS` is non-live and `HEALTH_STATUS`
is live.  With `INFO_STATUS` 401/403 and a configured password whose
`AUTH_STATUS ≠ 200` it fails RemoteAuthRejected; with `INFO_STATUS`
401/403, no rejection, and `/health` not live it fails
RemoteAuthRequired (even when a configured password was accepted);
with both endpoints non-live it fails RemoteProbeFailed. -/
theorem c3_probe_liveness_characterization (info auth health : Nat) (pw : Bool) :
    (probe_liveness_decision info auth health pw = .ok ↔
      ((200 ≤ info ∧ info ≤ 299) ∨
        (is_auth_http_status info = true ∧ ¬(pw = true ∧ auth ≠ 200) ∧
          is_liveness_http_status health = true) ∨
        (is_liveness_http_status info = false ∧ is_liveness_http_status health = true))) ∧
    ((∃ a, probe_liveness_decision info auth health pw = .authRejected a) ↔
      (is_auth_http_status info = true ∧ pw = true ∧ auth ≠ 200)) ∧
    (probe_liveness_decision info auth health pw = .authRequired ↔
      (is_auth_http_status info = true ∧ ¬(pw = true ∧ auth ≠ 200) ∧
        is_liveness_http_status health = false)) ∧
    ((∃ i h, probe_liveness_decision info auth health pw = .probeFailed i h) ↔
      (is_liveness_http_status info = false ∧ is_liveness_http_status health = false)) := by
  unfold probe_liveness_decision
  split_ifs with h1 h2 h3 h4 h5 <;>
    simp_all [is_liveness_http_status, is_auth_http_status] <;>
    omega

/-- C4: the spec's scenario S5 expects the config
`Host prod / HostName 10.0.0.1 / Host *.dev !skip / Host *` to import
exactly `prod` and `*.dev`.  The line scanner only compares the first
four characters against "host" (case-insensitively) with no keyword
boundary, so the `HostName 10.0.0.1` option line is treated as a `Host`
line and leaks the bogus candidates `Name` and `10.0.0.1`. -/
theorem c4_import_hostname_line_leaks_tokens :
    desktop_ssh_import_hosts
      (["Host prod", "  HostName 10.0.0.1", "Host *.dev !skip", "Host *"].map String.data) [] =
    [⟨"*.dev", true, "user", "ssh *.dev"⟩, ⟨"10.0.0.1", false, "user", "ssh 10.0.0.1"⟩,
      ⟨"Name", false, "user", "ssh Name"⟩, ⟨"prod", false, "user", "ssh prod"⟩] := by
  decide

/-- C10: every public command taking an instance id (connect,
disconnect, logs, logs.clear) rejects an id that trims to the empty
string or to the reserved `local` with the error
"SSH instance id is required", before touching any state — whatever
work the command would otherwise do. -/
theorem c10_instance_id_guard {σ : Type}
    (startConnect : String → σ → Except String Unit × σ)
    (disconnectInternal : String → σ → σ)
    (logsForInstance : String → Nat → σ → List String)
    (clearLogsForInstance : String → σ → σ)
    (s : σ) (id : String) (limit : Option Nat)
    (h : trimString id = "" ∨ trimString id = LOCAL_HOST_ID) :
    desktop_ssh_connect startConnect s id = (.error "SSH instance id is required", s) ∧
    desktop_ssh_disconnect disconnectInternal s id =
      (.error "SSH instance id is required", s) ∧
    desktop_ssh_logs logsForInstance s id limit =
      (.error "SSH instance id is required", s) ∧
    desktop_ssh_logs_clear clearLogsForInstance s id =
      (.error "SSH instance id is required", s) := by
  rcases h with h | h <;>
    simp [desktop_ssh_connect, desktop_ssh_disconnect, desktop_ssh_logs,
      desktop_ssh_logs_clear, h, LOCAL_HOST_ID, String.isEmpty]

theorem c10_instance_id_guard_witness :
    desktop_ssh_connect (σ := Unit) (fun _ s => (.ok (), s)) () " local " =
      (.error "SSH instance id is required", ()) ∧
    desktop_ssh_disconnect (σ := Unit) (fun _ s => s) () " local " =
      (.error "SSH instance id is required", ()) ∧
    desktop_ssh_logs (σ := Unit) (fun _ _ _ => []) () " local " none =
      (.error "SSH instance id is required", ()) ∧
    desktop_ssh_logs_clear (σ := Unit) (fun _ s => s) () " local " =
      (.error "SSH instance id is required", ()) :=
  c10_instance_id_guard (σ := Unit) (fun _ s => (.ok (), s)) (fun _ s => s)
    (fun _ _ _ => []) (fun _ s => s) () " local " none (Or.inr (by decide))

/-! ## Helper lemmas for the sanitize/write loop -/

theorem sanitize_instance_id_guard (inst : DesktopSshInstance)
    (hid : (trimString inst.id).isEmpty = true ∨ trimString inst.id = LOCAL_HOST_ID) :
    sanitize_instance inst = .error "SSH instance id is required" := by
  have hb : ((trimString inst.id).isEmpty ||
      decide (trimString inst.id = LOCAL_HOST_ID)) = true := by
    rcases hid with h | h <;> simp [h]
  simp [sanitize_instance, hb]

theorem sanitize_instance_cmd_guard (inst : DesktopSshInstance)
    (hid : ¬((trimString inst.id).isEmpty = true ∨ trimString inst.id = LOCAL_HOST_ID))
    (hcmd : (trimString inst.sshCommand).isEmpty = true) :
    sanitize_instance inst = .error "SSH command is required" := by
  push_neg at hid
  have hb : ((trimString inst.id).isEmpty ||
      decide (trimString inst.id = LOCAL_HOST_ID)) = false := by
    simp [hid.1, hid.2]
  simp [sanitize_instance, hb, hcmd]

/-- An instance with a blank or reserved id, or a blank command, fails
`sanitize_instance`. -/
theorem sanitize_instance_rejects (inst : DesktopSshInstance)
    (h : trimString inst.id = "" ∨ trimString inst.id = LOCAL_HOST_ID ∨
      trimString inst.sshCommand = "") :
    ∃ e, sanitize_instance inst = .error e := by
  rcases h with h | h | h
  · exact ⟨_, sanitize_instance_id_guard inst (Or.inl (by rw [h]; decide))⟩
  · exact ⟨_, sanitize_instance_id_guard inst (Or.inr h)⟩
  · by_cases hid : (trimString inst.id).isEmpty = true ∨ trimString inst.id = LOCAL_HOST_ID
    · exact ⟨_, sanitize_instance_id_guard inst hid⟩
    · exact ⟨_, sanitize_instance_cmd_guard inst hid (by rw [h]; decide)⟩

theorem sanitizeInstancesLoop_error_of_mem (items : List DesktopSshInstance)
    (seen : List String) (inst : DesktopSshInstance) (hmem : inst ∈ items)
    (hbad : ∃ e, sanitize_instance inst = .error e) :
    ∃ e, sanitizeInstancesLoop items seen = .error e := by
  induction items generalizing seen with
  | nil => cases hmem
  | cons head tail ih =>
    rcases List.mem_cons.mp hmem with rfl | hmem'
    · obtain ⟨e, he⟩ := hbad
      exact ⟨e, by simp [sanitizeInstancesLoop, he]⟩
    · unfold sanitizeInstancesLoop
      cases hs : sanitize_instance head with
      | error e => exact ⟨e, rfl⟩
      | ok normalized =>
        by_cases hc : normalized.id ∈ seen
        · obtain ⟨e, he⟩ := ih seen hmem'
          exact ⟨e, by simp [hc, he]⟩
        · obtain ⟨e, he⟩ := ih (normalized.id :: seen) hmem'
          exact ⟨e, by simp [hc, he]⟩

theorem sanitizeInstancesLoop_ok (items : List DesktopSshInstance) (seen : List String)
    (h : ∀ i ∈ items, ∃ out, sanitize_instance i = .ok out) :
    ∃ outs, sanitizeInstancesLoop items seen = .ok outs ∧
      (∀ x ∈ outs.map (fun i => i.id), x ∉ seen) ∧
      (outs.map (fun i => i.id)).Nodup := by
  induction items generalizing seen with
  | nil => exact ⟨[], rfl, by simp, by simp⟩
  | cons head tail ih =>
    obtain ⟨out, hout⟩ := h head (List.mem_cons_self head tail)
    have htail : ∀ i ∈ tail, ∃ o, sanitize_instance i = .ok o :=
      fun i hi => h i (List.mem_cons_of_mem head hi)
    by_cases hc : out.id ∈ seen
    · obtain ⟨outs, heq, hseen, hnodup⟩ := ih seen htail
      exact ⟨outs, by simp [sanitizeInstancesLoop, hout, hc, heq], hseen, hnodup⟩
    · obtain ⟨outs, heq, hseen, hnodup⟩ := ih (out.id :: seen) htail
      refine ⟨out :: outs, by simp [sanitizeInstancesLoop, hout, hc, heq], ?_, ?_⟩
      · intro x hx
        simp only [List.map_cons, List.mem_cons] at hx
        rcases hx with rfl | hx'
        · exact hc
        · exact fun hxseen => hseen x hx' (List.mem_cons_of_mem _ hxseen)
      · simp only [List.map_cons, List.nodup_cons]
        exact ⟨fun hmem => hseen out.id hmem (List.mem_cons_self _ _), hnodup⟩

/-- C5 counterexample: the claim says an item with the reserved id
`local` is dropped during sanitization and the write still succeeds.
In the code, `sanitize_instance(instance)?` propagates the failure, so
`instances.set` containing one such item (here together with a
perfectly valid item) fails as a whole and persists nothing. -/
theorem c5_counterexample :
    write_desktop_ssh_instances ⟨[], [], none⟩
      [⟨"local", none, "ssh user@h", none, 60, ⟨.Managed, true, none, .Bun, false⟩, none,
          "127.0.0.1", ⟨none, none⟩, []⟩,
        ⟨"box1", none, "ssh user@h", none, 60, ⟨.Managed, true, none, .Bun, false⟩, none,
          "127.0.0.1", ⟨none, none⟩, []⟩] =
      .error "SSH instance id is required" := by
  decide

/-- C5 amended: an incoming item whose id trims to the empty string or
to the reserved `local`, or whose command trims to the empty string, is
not dropped — it makes the whole `instances.set` write fail with the
corresponding sanitize error.  Only when every item sanitizes does the
write succeed, persisting the sanitized instances deduped by id. -/
theorem c5_sanitize_write (root : SettingsRoot) (items : List DesktopSshInstance) :
    ((∃ inst ∈ items, trimString inst.id = "" ∨ trimString inst.id = LOCAL_HOST_ID ∨
        trimString inst.sshCommand = "") →
      ∃ e, write_desktop_ssh_instances root items = .error e) ∧
    ((∀ i ∈ items, ∃ out, sanitize_instance i = .ok out) →
      ∃ outs, sanitizeInstancesLoop items [] = .ok outs ∧
        (outs.map (fun i => i.id)).Nodup ∧
        ∃ root2, write_desktop_ssh_instances root items = .ok root2 ∧
          root2.desktopSshInstances = outs) := by
  constructor
  · rintro ⟨inst, hmem, hbad⟩
    obtain ⟨e, he⟩ := sanitizeInstancesLoop_error_of_mem items [] inst hmem
      (sanitize_instance_rejects inst hbad)
    exact ⟨e, by simp [write_desktop_ssh_instances, he]⟩
  · intro hok
    obtain ⟨outs, heq, _, hnodup⟩ := sanitizeInstancesLoop_ok items [] hok
    exact ⟨outs, heq, hnodup,
      { sync_desktop_hosts_for_ssh root (root.desktopSshInstances.map (fun i => i.id)) outs with
          desktopSshInstances := outs },
      by simp [write_desktop_ssh_instances, heq], rfl⟩

theorem c5_sanitize_write_witness :
    ∃ e, write_desktop_ssh_instances ⟨[], [], none⟩
      [⟨" ", none, "ssh user@h", none, 60, ⟨.Managed, true, none, .Bun, false⟩, none,
          "127.0.0.1", ⟨none, none⟩, []⟩] = .error e :=
  (c5_sanitize_write ⟨[], [], none⟩ _).1
    ⟨_, List.mem_cons_self _ _, Or.inl (by decide)⟩

/-! ## Helper lemmas for the hosts-list synchronization -/

theorem upsert_preserves_nonmatching (inst : DesktopSshInstance) (hs : List HostEntry)
    (h : HostEntry) (hmem : h ∈ hs) (hne : hostEntryId h ≠ inst.id) :
    h ∈ upsertHostForInstance inst hs := by
  induction hs with
  | nil => cases hmem
  | cons g rest ih =>
    rcases List.mem_cons.mp hmem with rfl | hmem'
    · simp [upsertHostForInstance, hne]
    · by_cases hg : hostEntryId g = inst.id
      · simp only [upsertHostForInstance, if_pos hg]
        exact List.mem_cons_of_mem _ hmem'
      · simp only [upsertHostForInstance, if_neg hg]
        exact List.mem_cons_of_mem _ (ih hmem')

theorem upsert_id_bound (inst : DesktopSshInstance) (hs : List HostEntry) (g : HostEntry)
    (hg : g ∈ upsertHostForInstance inst hs) : g ∈ hs ∨ g.id = some inst.id := by
  induction hs with
  | nil =>
    simp only [upsertHostForInstance, List.mem_singleton] at hg
    exact Or.inr (by simp [hg, newHostForInstance])
  | cons hHead rest ih =>
    by_cases hc : hostEntryId hHead = inst.id
    · simp only [upsertHostForInstance, if_pos hc, List.mem_cons] at hg
      rcases hg with rfl | hg'
      · exact Or.inr (by simp [updateHostForInstance])
      · exact Or.inl (List.mem_cons_of_mem _ hg')
    · simp only [upsertHostForInstance, if_neg hc, List.mem_cons] at hg
      rcases hg with rfl | hg'
      · exact Or.inl (List.mem_cons_self _ _)
      · rcases ih hg' with hmem | hid
        · exact Or.inl (List.mem_cons_of_mem _ hmem)
        · exact Or.inr hid

theorem foldl_upsert_mem_bound (instances : List DesktopSshInstance)
    (hs0 : List HostEntry) (g : HostEntry)
    (hg : g ∈ instances.foldl (fun hs i => upsertHostForInstance i hs) hs0) :
    g ∈ hs0 ∨ ∃ i ∈ instances, g.id = some i.id := by
  induction instances generalizing hs0 with
  | nil => exact Or.inl hg
  | cons i rest ih =>
    rcases ih (upsertHostForInstance i hs0) hg with hmem | ⟨j, hj, hid⟩
    · rcases upsert_id_bound i hs0 g hmem with hmem0 | hid
      · exact Or.inl hmem0
      · exact Or.inr ⟨i, List.mem_cons_self _ _, hid⟩
    · exact Or.inr ⟨j, List.mem_cons_of_mem _ hj, hid⟩

theorem foldl_upsert_preserves (instances : List DesktopSshInstance)
    (hs0 : List HostEntry) (h : HostEntry) (hmem : h ∈ hs0)
    (hne : ∀ i ∈ instances, hostEntryId h ≠ i.id) :
    h ∈ instances.foldl (fun hs i => upsertHostForInstance i hs) hs0 := by
  induction instances generalizing hs0 with
  | nil => exact hmem
  | cons i rest ih =>
    exact ih (upsertHostForInstance i hs0)
      (upsert_preserves_nonmatching i hs0 h hmem (hne i (List.mem_cons_self _ _)))
      (fun j hj => hne j (List.mem_cons_of_mem _ hj))

theorem upsert_provides (inst : DesktopSshInstance) (hs : List HostEntry) :
    ∃ h ∈ upsertHostForInstance inst hs,
      h.id = some inst.id ∧ h.label = some (build_display_label inst) ∧
      (h.url = some "http://127.0.0.1/" ∨
        ∃ g ∈ hs, hostEntryId g = inst.id ∧ h.url = g.url ∧ blankString g.url = false) := by
  induction hs with
  | nil =>
    exact ⟨newHostForInstance inst, by simp [upsertHostForInstance], rfl, rfl, Or.inl rfl⟩
  | cons g rest ih =>
    by_cases hc : hostEntryId g = inst.id
    · refine ⟨updateHostForInstance inst g, ?_, rfl, rfl, ?_⟩
      · simp [upsertHostForInstance, hc]
      · by_cases hb : blankString g.url = true
        · exact Or.inl (by simp [updateHostForInstance, hb])
        · exact Or.inr ⟨g, List.mem_cons_self _ _, hc,
            by simp [updateHostForInstance, hb], by simpa using hb⟩
    · obtain ⟨h, hmem, h1, h2, h3⟩ := ih
      refine ⟨h, ?_, h1, h2, ?_⟩
      · simp only [upsertHostForInstance, if_neg hc]
        exact List.mem_cons_of_mem _ hmem
      · rcases h3 with h3 | ⟨g', hg', hrest⟩
        · exact Or.inl h3
        · exact Or.inr ⟨g', List.mem_cons_of_mem _ hg', hrest⟩

theorem foldl_upsert_provides (instances : List DesktopSshInstance)
    (hs0 base : List HostEntry)
    (hids : ∀ i ∈ instances, trimString i.id = i.id)
    (hnodup : (instances.map (fun i => i.id)).Nodup)
    (hbase : ∀ g ∈ hs0, ∀ i ∈ instances, hostEntryId g = i.id → g ∈ base) :
    ∀ inst ∈ instances,
      ∃ h ∈ instances.foldl (fun hs i => upsertHostForInstance i hs) hs0,
        h.id = some inst.id ∧ h.label = some (build_display_label inst) ∧
        (h.url = some "http://127.0.0.1/" ∨
          ∃ g ∈ base, hostEntryId g = inst.id ∧ h.url = g.url ∧ blankString g.url = false) := by
  induction instances generalizing hs0 with
  | nil => intro inst hmem; cases hmem
  | cons i rest ih =>
    have hnodup' : (rest.map (fun j => j.id)).Nodup := (List.nodup_cons.mp hnodup).2
    have hhead : i.id ∉ rest.map (fun j => j.id) := (List.nodup_cons.mp hnodup).1
    intro inst hmem
    rcases List.mem_cons.mp hmem with rfl | hmem'
    · obtain ⟨h, hmemU, h1, h2, h3⟩ := upsert_provides inst hs0
      have hidh : hostEntryId h = inst.id := by
        simp [hostEntryId, h1, hids inst (List.mem_cons_self _ _)]
      refine ⟨h, ?_, h1, h2, ?_⟩
      · exact foldl_upsert_preserves rest (upsertHostForInstance inst hs0) h hmemU
          (fun j hj hcontra => hhead (by
            rw [hidh] at hcontra
            exact hcontra ▸ List.mem_map_of_mem (fun k => k.id) hj))
      · rcases h3 with h3 | ⟨g, hg, hgid, hrest⟩
        · exact Or.inl h3
        · exact Or.inr ⟨g, hbase g hg inst (List.mem_cons_self _ _) hgid, hgid, hrest⟩
    · refine ih (upsertHostForInstance i hs0)
        (fun j hj => hids j (List.mem_cons_of_mem _ hj)) hnodup' ?_ inst hmem'
      intro g hg j hj hgid
      rcases upsert_id_bound i hs0 g hg with hmem0 | hid
      · exact hbase g hmem0 j (List.mem_cons_of_mem _ hj) hgid
      · exfalso
        have : hostEntryId g = i.id := by
          simp [hostEntryId, hid, hids i (List.mem_cons_self _ _)]
        rw [this] at hgid
        exact hhead (hgid ▸ List.mem_map_of_mem (fun k => k.id) hj)

/-- C6 counterexample, two parts.  (1) `instances.set([])` from a state
with no stored ssh instances leaves an already-`local` default host id in
place, so after the write the default id equals `local` although this
write removed no id — refuting the claim's "default host id is `local`
iff it referenced an id removed by this write".  (2) The same write from
a state holding one host whose id trims to the blank string drops that
host although its id was not "present in prev's id set and absent from
next's" — refuting the claim's "the hosts list contains exactly the
prior hosts whose id was not removed plus one entry per instance"
(`hosts.retain` discards blank-id entries unconditionally). -/
theorem c6_counterexample :
    write_desktop_ssh_instances ⟨[], [], some "local"⟩ [] = .ok ⟨[], [], some "local"⟩ ∧
    write_desktop_ssh_instances
        ⟨[], [{ id := some "", label := some "x", url := some "http://u/" }], some "local"⟩
        [] =
      .ok ⟨[], [], some "local"⟩ := by
  exact ⟨by decide, by decide⟩

/-- C6 amended: after the sync, (1) prior hosts whose id was present
before and absent now are gone; (2) prior hosts with a nonblank id
neither removed nor matching an instance survive unchanged; (3) the
resulting hosts list contains nothing else — every entry is either a
prior host that passed the retain filter (nonblank id, not removed) or
carries the id of some instance in `next`; (4) each instance has an
entry carrying its id and display label whose URL is the placeholder
`http://127.0.0.1/` or the prior entry's nonblank URL; and (5) the
default host id is *set to* `local` when it was nonblank, present in
the prior ids and absent from the next ids, and is left unchanged
otherwise (so it can equal `local` without any id having been
removed). -/
theorem c6_settings_sync (root : SettingsRoot) (previousIds : List String)
    (instances : List DesktopSshInstance)
    (hids : ∀ i ∈ instances, trimString i.id = i.id)
    (hnodup : (instances.map (fun i => i.id)).Nodup) :
    (∀ h ∈ root.desktopHosts, hostEntryId h ∈ previousIds →
      hostEntryId h ∉ instances.map (fun i => i.id) →
      ∀ g ∈ (sync_desktop_hosts_for_ssh root previousIds instances).desktopHosts,
        hostEntryId g ≠ hostEntryId h) ∧
    (∀ h ∈ root.desktopHosts, (hostEntryId h).isEmpty = false →
      hostEntryId h ∉ previousIds →
      hostEntryId h ∉ instances.map (fun i => i.id) →
      h ∈ (sync_desktop_hosts_for_ssh root previousIds instances).desktopHosts) ∧
    (∀ g ∈ (sync_desktop_hosts_for_ssh root previousIds instances).desktopHosts,
      (g ∈ root.desktopHosts ∧ (hostEntryId g).isEmpty = false ∧
        ¬(hostEntryId g ∈ previousIds ∧ hostEntryId g ∉ instances.map (fun i => i.id))) ∨
      ∃ i ∈ instances, g.id = some i.id) ∧
    (∀ inst ∈ instances,
      ∃ h ∈ (sync_desktop_hosts_for_ssh root previousIds instances).desktopHosts,
        h.id = some inst.id ∧ h.label = some (build_display_label inst) ∧
        (h.url = some "http://127.0.0.1/" ∨
          ∃ g ∈ root.desktopHosts, hostEntryId g = inst.id ∧ h.url = g.url ∧
            blankString g.url = false)) ∧
    ((trimString (root.desktopDefaultHostId.getD "")).isEmpty = false →
      trimString (root.desktopDefaultHostId.getD "") ∈ previousIds →
      trimString (root.desktopDefaultHostId.getD "") ∉ instances.map (fun i => i.id) →
      (sync_desktop_hosts_for_ssh root previousIds instances).desktopDefaultHostId =
        some LOCAL_HOST_ID) ∧
    (((trimString (root.desktopDefaultHostId.getD "")).isEmpty = true ∨
        trimString (root.desktopDefaultHostId.getD "") ∉ previousIds ∨
        trimString (root.desktopDefaultHostId.getD "") ∈ instances.map (fun i => i.id)) →
      (sync_desktop_hosts_for_ssh root previousIds instances).desktopDefaultHostId =
        root.desktopDefaultHostId) := by
  have hH : (sync_desktop_hosts_for_ssh root previousIds instances).desktopHosts =
      instances.foldl (fun hs i => upsertHostForInstance i hs)
        (syncRetainHosts previousIds (instances.map (fun i => i.id)) root.desktopHosts) := rfl
  refine ⟨?_, ?_, ?_, ?_, ?_, ?_⟩
  · intro h hmem hprev hnext g hg hcontra
    rw [hH] at hg
    rcases foldl_upsert_mem_bound instances _ g hg with hmem0 | ⟨i, hi, gid⟩
    · have hcond := (List.mem_filter.mp hmem0).2
      rw [hcontra] at hcond
      simp [hprev, hnext] at hcond
    · have : hostEntryId g = i.id := by
        simp [hostEntryId, gid, hids i hi]
      rw [hcontra] at this
      exact hnext (this ▸ List.mem_map_of_mem (fun k => k.id) hi)
  · intro h hmem hempty hprev hnext
    rw [hH]
    refine foldl_upsert_preserves instances _ h ?_ ?_
    · exact List.mem_filter.mpr ⟨hmem, by simp [hempty, hprev]⟩
    · intro i hi hcontra
      exact hnext (hcontra ▸ List.mem_map_of_mem (fun k => k.id) hi)
  · intro g hg
    rw [hH] at hg
    rcases foldl_upsert_mem_bound instances _ g hg with hmem0 | hinst
    · obtain ⟨hmem, hcond⟩ := List.mem_filter.mp hmem0
      simp only [Bool.and_eq_true, Bool.not_eq_true'] at hcond
      refine Or.inl ⟨hmem, hcond.1, ?_⟩
      intro ⟨hprev, hnext⟩
      have h1 : previousIds.contains (hostEntryId g) = true := List.elem_iff.mpr hprev
      have h2 : (instances.map (fun i => i.id)).contains (hostEntryId g) = false := by
        rw [Bool.eq_false_iff]
        intro hc
        exact hnext (List.elem_iff.mp hc)
      rw [h1, h2] at hcond
      simp at hcond
    · exact Or.inr hinst
  · intro inst hmem
    rw [hH]
    exact foldl_upsert_provides instances _ root.desktopHosts hids hnodup
      (fun g hg _ _ _ => (List.mem_filter.mp hg).1) inst hmem
  · intro hempty hprev hnext
    simp [sync_desktop_hosts_for_ssh, hempty, hprev, hnext]
  · intro hdisj
    rcases hdisj with hd | hd | hd <;> simp [sync_desktop_hosts_for_ssh, hd]

theorem c6_settings_sync_witness :
    (sync_desktop_hosts_for_ssh ⟨[], [], some "old"⟩ ["old"] []).desktopDefaultHostId =
      some LOCAL_HOST_ID :=
  (c6_settings_sync ⟨[], [], some "old"⟩ ["old"] [] (by simp) (by simp)).2.2.2.2.1
    (by decide) (by decide) (by decide)

/-! ## Helper lemmas for the version-pattern equivalence -/

theorem drop_takeWhile_length (p : Char → Bool) (l : List Char) :
    l.drop (l.takeWhile p).length = l.dropWhile p := by
  induction l with
  | nil => rfl
  | cons c t ih =>
    by_cases hc : p c
    · simpa [List.takeWhile_cons, List.dropWhile_cons, hc] using ih
    · simp [List.takeWhile_cons, List.dropWhile_cons, hc]

theorem takeWhile_append_of_all (p : Char → Bool) (a b : List Char)
    (ha : ∀ c ∈ a, p c = true) (hb : ∀ c, b.head? = some c → p c = false) :
    (a ++ b).takeWhile p = a := by
  induction a with
  | nil =>
    cases b with
    | nil => rfl
    | cons c t => simp [List.takeWhile_cons, hb c rfl]
  | cons c t ih =>
    have hc := ha c (List.mem_cons_self _ _)
    simp only [List.cons_append, List.takeWhile_cons, hc]
    simp [ih (fun d hd => ha d (List.mem_cons_of_mem _ hd))]

theorem dropWhile_append_of_all (p : Char → Bool) (a b : List Char)
    (ha : ∀ c ∈ a, p c = true) :
    (a ++ b).dropWhile p = b.dropWhile p := by
  induction a with
  | nil => rfl
  | cons c t ih =>
    have hc := ha c (List.mem_cons_self _ _)
    simp only [List.cons_append, List.dropWhile_cons, hc]
    simpa using ih (fun d hd => ha d (List.mem_cons_of_mem _ hd))

theorem dropWhile_head_false (p : Char → Bool) (b : List Char) (c : Char)
    (hhead : b.head? = some c) (hc : p c = false) : b.dropWhile p = b := by
  cases b with
  | nil => rfl
  | cons d t =>
    obtain rfl : d = c := by simpa using hhead
    simp [List.dropWhile_cons, hc]

theorem dropWhile_result_head_false (p : Char → Bool) (l : List Char) (c : Char)
    (t : List Char) (h : l.dropWhile p = c :: t) : p c = false := by
  induction l with
  | nil => simp at h
  | cons d r ih =>
    by_cases hd : p d
    · exact ih (by simpa [List.dropWhile_cons, hd] using h)
    · rw [List.dropWhile_cons, if_neg (by simp [hd])] at h
      cases h
      simpa using hd

theorem splitOnDot_ne_nil (cs : List Char) : splitOnDot cs ≠ [] := by
  cases cs with
  | nil => simp [splitOnDot]
  | cons c rest =>
    by_cases hc : c = '.'
    · simp [splitOnDot, hc]
    · simp only [splitOnDot, if_neg hc]
      cases h : splitOnDot rest <;> simp

theorem splitOnDot_no_dot (cs : List Char) (h : ∀ c ∈ cs, ¬(c = '.')) :
    splitOnDot cs = [cs] := by
  induction cs with
  | nil => rfl
  | cons c rest ih =>
    have hc : ¬(c = '.') := h c (List.mem_cons_self _ _)
    have := ih (fun d hd => h d (List.mem_cons_of_mem _ hd))
    simp [splitOnDot, hc, this]

theorem splitOnDot_append (a b : List Char) (h : ∀ c ∈ a, ¬(c = '.')) :
    splitOnDot (a ++ '.' :: b) = a :: splitOnDot b := by
  induction a with
  | nil => simp [splitOnDot]
  | cons c rest ih =>
    have hc : ¬(c = '.') := h c (List.mem_cons_self _ _)
    have := ih (fun d hd => h d (List.mem_cons_of_mem _ hd))
    simp [splitOnDot, hc, this]

theorem joinDots_splitOnDot (cs : List Char) : joinDots (splitOnDot cs) = cs := by
  induction cs with
  | nil => rfl
  | cons c rest ih =>
    by_cases hc : c = '.'
    · subst hc
      simp only [splitOnDot, if_pos rfl]
      cases h : splitOnDot rest with
      | nil => exact absurd h (splitOnDot_ne_nil rest)
      | cons p ps =>
        rw [h] at ih
        simp [joinDots, ih]
    · simp only [splitOnDot, if_neg hc]
      cases h : splitOnDot rest with
      | nil => exact absurd h (splitOnDot_ne_nil rest)
      | cons p ps =>
        rw [h] at ih
        cases ps with
        | nil => simpa [joinDots] using ih
        | cons q qs => simpa [joinDots] using ih

theorem joinDots_cons_eq (ds : List Char) (gs : List (List Char)) :
    joinDots (ds :: gs) = ds ++ joinGroups gs := by
  induction gs generalizing ds with
  | nil => simp [joinDots, joinGroups]
  | cons g rest ih => simp [joinDots, joinGroups, ih g]

theorem splitOnDot_join (gs : List (List Char)) (ds : List Char)
    (hds : ∀ c ∈ ds, ¬(c = '.')) (hgs : ∀ g ∈ gs, ∀ c ∈ g, ¬(c = '.')) :
    splitOnDot (ds ++ joinGroups gs) = ds :: gs := by
  induction gs generalizing ds with
  | nil => simpa [joinGroups] using splitOnDot_no_dot ds hds
  | cons g rest ih =>
    have : ds ++ joinGroups (g :: rest) = ds ++ '.' :: (g ++ joinGroups rest) := by
      simp [joinGroups]
    rw [this, splitOnDot_append ds _ hds,
      ih g (hgs g (List.mem_cons_self _ _)) (fun j hj => hgs j (List.mem_cons_of_mem _ hj))]

theorem digit_no_dot (c : Char) (h : c.isDigit = true) : ¬(c = '.') := by
  intro hc; subst hc; simp at h

theorem punct_not_digit (c : Char) (h : isVersionPunct c = true) : c.isDigit = false := by
  simp only [isVersionPunct, Bool.or_eq_true, decide_eq_true_eq] at h
  rcases h with (rfl | rfl) | rfl <;> decide

theorem digit_not_punct (c : Char) (h : c.isDigit = true) : isVersionPunct c = false := by
  cases hp : isVersionPunct c with
  | false => rfl
  | true => rw [punct_not_digit c hp] at h; cases h

theorem joinGroups_ne_nil (g : List Char) (rest : List (List Char)) :
    joinGroups (g :: rest) ≠ [] := by
  simp [joinGroups]

theorem joinGroups_getLast_digit (gs : List (List Char))
    (hgs : ∀ ds ∈ gs, ds ≠ [] ∧ ds.all Char.isDigit = true) (hne : gs ≠ []) :
    ∃ d, (joinGroups gs).getLast? = some d ∧ d.isDigit = true := by
  induction gs with
  | nil => exact absurd rfl hne
  | cons g rest ih =>
    cases rest with
    | nil =>
      obtain ⟨hg, hdig⟩ := hgs g (List.mem_cons_self _ _)
      obtain ⟨d, hd⟩ := Option.isSome_iff_exists.mp (List.getLast?_isSome.mpr hg)
      refine ⟨d, ?_, ?_⟩
      · have : joinGroups [g] = '.' :: g ++ [] := by simp [joinGroups]
        rw [this]
        simpa using List.getLast?_append_of_ne_nil ['.'] hg ▸ hd
      · exact (List.all_eq_true.mp hdig) d (List.mem_of_mem_getLast? hd)
    | cons g2 rest2 =>
      obtain ⟨d, hd, hdig⟩ := ih (fun j hj => hgs j (List.mem_cons_of_mem _ hj)) (by simp)
      refine ⟨d, ?_, hdig⟩
      have hjoin : joinGroups (g :: g2 :: rest2) = ('.' :: g) ++ joinGroups (g2 :: rest2) := by
        simp [joinGroups]
      rw [hjoin, List.getLast?_append_of_ne_nil _ (joinGroups_ne_nil g2 rest2)]
      exact hd

theorem dotGroups_nil : dotGroups [] = ([], []) := by
  unfold dotGroups
  rfl

theorem dotGroups_not_dot (c : Char) (rest : List Char) (hc : ¬(c = '.')) :
    dotGroups (c :: rest) = ([], c :: rest) := by
  unfold dotGroups
  split
  · rename_i heq
    injection heq with h1 h2
    exact absurd h1 hc
  · rfl

theorem dotGroups_dot_empty (rest : List Char)
    (h : (rest.takeWhile Char.isDigit).isEmpty = true) :
    dotGroups ('.' :: rest) = ([], '.' :: rest) := by
  conv_lhs => unfold dotGroups
  split
  · rename_i r heq
    injection heq with h1 h2
    subst h2
    rw [if_pos h]
  · rename_i hcat
    exact absurd rfl (hcat rest)

theorem dotGroups_dot_cons (rest : List Char)
    (h : (rest.takeWhile Char.isDigit).isEmpty = false) :
    dotGroups ('.' :: rest) =
      ('.' :: rest.takeWhile Char.isDigit ++
          (dotGroups (rest.drop (rest.takeWhile Char.isDigit).length)).1,
        (dotGroups (rest.drop (rest.takeWhile Char.isDigit).length)).2) := by
  conv_lhs => unfold dotGroups
  split
  · rename_i r heq
    injection heq with h1 h2
    subst h2
    rw [if_neg (by simp [h])]
  · rename_i hcat
    exact absurd rfl (hcat rest)

theorem punct_not_dot (c : Char) (h : isVersionPunct c = true) : ¬(c = '.') := by
  simp only [isVersionPunct, Bool.or_eq_true, decide_eq_true_eq] at h
  rcases h with (rfl | rfl) | rfl <;> decide

theorem dropTrailing_append (X P : List Char) (hP : ∀ c ∈ P, isVersionPunct c = true)
    (hX : ∀ d, X.getLast? = some d → isVersionPunct d = false) :
    dropTrailingVersionPuncts (X ++ P) = X := by
  unfold dropTrailingVersionPuncts
  rw [List.reverse_append,
    dropWhile_append_of_all isVersionPunct P.reverse X.reverse
      (fun c hc => hP c (List.mem_reverse.mp hc))]
  cases hxr : X.reverse with
  | nil =>
    simpa using (List.reverse_eq_nil_iff.mp hxr).symm
  | cons d t =>
    have hd : X.getLast? = some d := by
      rw [← List.head?_reverse, hxr]; rfl
    rw [List.dropWhile_cons, if_neg (by simp [hX d hd]), ← hxr, List.reverse_reverse]

theorem dropTrailing_decomp (A : List Char) :
    A = dropTrailingVersionPuncts A ++ (A.reverse.takeWhile isVersionPunct).reverse ∧
      (∀ c ∈ (A.reverse.takeWhile isVersionPunct).reverse, isVersionPunct c = true) ∧
      (∀ d, (dropTrailingVersionPuncts A).getLast? = some d → isVersionPunct d = false) := by
  refine ⟨?_, ?_, ?_⟩
  · conv_lhs => rw [← List.reverse_reverse A,
      ← List.takeWhile_append_dropWhile isVersionPunct A.reverse]
    rw [List.reverse_append]
    rfl
  · intro c hc
    exact List.mem_takeWhile_imp (List.mem_reverse.mp hc)
  · intro d hd
    have hh : (A.reverse.dropWhile isVersionPunct).head? = some d := by
      rw [← List.getLast?_reverse]
      exact hd
    cases hdw : A.reverse.dropWhile isVersionPunct with
    | nil => rw [hdw] at hh; cases hh
    | cons c t =>
      rw [hdw] at hh
      obtain rfl : c = d := by simpa using hh
      exact dropWhile_result_head_false isVersionPunct A.reverse c t hdw

theorem dotGroups_join (gs : List (List Char)) (P : List Char)
    (hgs : ∀ ds ∈ gs, ds ≠ [] ∧ ds.all Char.isDigit = true)
    (hPdot : ∀ c, P.head? = some c → ¬(c = '.'))
    (hPdig : ∀ c, P.head? = some c → c.isDigit = false) :
    dotGroups (joinGroups gs ++ P) = (joinGroups gs, P) := by
  induction gs with
  | nil =>
    simp only [joinGroups, List.nil_append]
    cases P with
    | nil => exact dotGroups_nil
    | cons c t => exact dotGroups_not_dot c t (hPdot c rfl)
  | cons g rest ih =>
    obtain ⟨hgne, hgdig⟩ := hgs g (List.mem_cons_self _ _)
    have hrest : ∀ ds ∈ rest, ds ≠ [] ∧ ds.all Char.isDigit = true :=
      fun j hj => hgs j (List.mem_cons_of_mem _ hj)
    have hnext : ∀ c, (joinGroups rest ++ P).head? = some c → Char.isDigit c = false := by
      intro c hc
      cases rest with
      | nil => exact hPdig c (by simpa [joinGroups] using hc)
      | cons g2 r2 =>
        have hc' : c = '.' := by
          have : (joinGroups (g2 :: r2) ++ P).head? = some '.' := by simp [joinGroups]
          rw [this] at hc
          exact (Option.some_inj.mp hc).symm
        subst hc'
        decide
    have hjoin : joinGroups (g :: rest) ++ P = '.' :: (g ++ (joinGroups rest ++ P)) := by
      simp [joinGroups]
    have htake : (g ++ (joinGroups rest ++ P)).takeWhile Char.isDigit = g :=
      takeWhile_append_of_all _ g _ (fun c hc => List.all_eq_true.mp hgdig c hc) hnext
    have hdrop : (g ++ (joinGroups rest ++ P)).drop g.length = joinGroups rest ++ P :=
      List.drop_left g (joinGroups rest ++ P)
    rw [hjoin, dotGroups_dot_cons _ (by rw [htake]; simpa using hgne)]
    rw [htake, hdrop, ih hrest]
    simp [joinGroups]

theorem dotGroups_inv (X0 : List Char) :
    ∃ gs, (dotGroups X0).1 = joinGroups gs ∧
      (∀ ds ∈ gs, ds ≠ [] ∧ ds.all Char.isDigit = true) ∧
      X0 = (dotGroups X0).1 ++ (dotGroups X0).2 := by
  suffices h : ∀ (n : Nat) (X : List Char), X.length ≤ n →
      ∃ gs, (dotGroups X).1 = joinGroups gs ∧
        (∀ ds ∈ gs, ds ≠ [] ∧ ds.all Char.isDigit = true) ∧
        X = (dotGroups X).1 ++ (dotGroups X).2 by
    exact h X0.length X0 le_rfl
  intro n
  induction n with
  | zero =>
    intro X hX
    obtain rfl : X = [] := List.eq_nil_of_length_eq_zero (Nat.le_zero.mp hX)
    exact ⟨[], by simp [dotGroups_nil, joinGroups], by simp, by simp [dotGroups_nil]⟩
  | succ n ihn =>
    intro X hX
    cases X with
    | nil => exact ⟨[], by simp [dotGroups_nil, joinGroups], by simp, by simp [dotGroups_nil]⟩
    | cons c rest =>
      by_cases hc : c = '.'
      · subst hc
        by_cases hds : (rest.takeWhile Char.isDigit).isEmpty = true
        · rw [dotGroups_dot_empty rest hds]
          exact ⟨[], rfl, by simp, rfl⟩
        · rw [dotGroups_dot_cons rest (by simpa using hds)]
          have hlen : (rest.drop (rest.takeWhile Char.isDigit).length).length ≤ n := by
            have h1 : rest.length ≤ n := by simpa using hX
            have h2 := List.length_drop (rest.takeWhile Char.isDigit).length rest
            omega
          obtain ⟨gs', h1, h2, h3⟩ := ihn (rest.drop (rest.takeWhile Char.isDigit).length) hlen
          refine ⟨rest.takeWhile Char.isDigit :: gs', ?_, ?_, ?_⟩
          · simp [joinGroups, h1]
          · intro e he
            rcases List.mem_cons.mp he with rfl | he'
            · exact ⟨by simpa using hds,
                List.all_eq_true.mpr (fun c hc => List.mem_takeWhile_imp hc)⟩
            · exact h2 e he'
          · have hsplit : rest = rest.takeWhile Char.isDigit ++
                rest.drop (rest.takeWhile Char.isDigit).length := by
              rw [drop_takeWhile_length]
              exact (List.takeWhile_append_dropWhile Char.isDigit rest).symm
            calc '.' :: rest
                = '.' :: (rest.takeWhile Char.isDigit ++
                    rest.drop (rest.takeWhile Char.isDigit).length) := by rw [← hsplit]
              _ = ('.' :: rest.takeWhile Char.isDigit ++
                    (dotGroups (rest.drop (rest.takeWhile Char.isDigit).length)).1) ++
                    (dotGroups (rest.drop (rest.takeWhile Char.isDigit).length)).2 := by
                  simp only [List.cons_append, List.append_assoc]
                  rw [← h3]
      · rw [dotGroups_not_dot c rest hc]
        exact ⟨[], rfl, by simp, rfl⟩

theorem head?_mem {x : Char} {l : List Char} (h : l.head? = some x) : x ∈ l := by
  cases l with
  | nil => cases h
  | cons a t =>
    obtain rfl : a = x := by simpa using h
    exact List.mem_cons_self _ _

theorem versionCore_code_imp_regex (A c : List Char)
    (h : versionCandidateCore A = some c) : regexTailMatch A = some c := by
  simp only [versionCandidateCore] at h
  by_cases h1 : (splitOnDot (dropTrailingVersionPuncts A)).length < 2
  · rw [if_pos h1] at h; exact Option.noConfusion h
  · rw [if_neg h1] at h
    by_cases h2 : (splitOnDot (dropTrailingVersionPuncts A)).all
        (fun p => !p.isEmpty && p.all Char.isDigit) = true
    · rw [if_pos h2] at h
      obtain rfl : dropTrailingVersionPuncts A = c := Option.some_inj.mp h
      obtain ⟨hdecomp, hPp, _⟩ := dropTrailing_decomp A
      set P := (A.reverse.takeWhile isVersionPunct).reverse with hPdef
      cases hparts : splitOnDot (dropTrailingVersionPuncts A) with
      | nil => exact absurd hparts (splitOnDot_ne_nil _)
      | cons ds gs =>
        rw [hparts] at h1 h2
        simp only [List.all_cons, Bool.and_eq_true, Bool.not_eq_true'] at h2
        obtain ⟨⟨hdsE, hdsdig⟩, hgsall⟩ := h2
        have hdsne : ds ≠ [] := by simpa using hdsE
        have hgsgood : ∀ g ∈ gs, g ≠ [] ∧ g.all Char.isDigit = true := by
          intro g hg
          have := List.all_eq_true.mp hgsall g hg
          simp only [Bool.and_eq_true, Bool.not_eq_true'] at this
          exact ⟨by simpa using this.1, this.2⟩
        obtain ⟨g1, gs', rfl⟩ : ∃ g1 gs', gs = g1 :: gs' := by
          cases gs with
          | nil => simp at h1
          | cons a b => exact ⟨a, b, rfl⟩
        have hC : dropTrailingVersionPuncts A = ds ++ joinGroups (g1 :: gs') := by
          rw [← joinDots_splitOnDot (dropTrailingVersionPuncts A), hparts, joinDots_cons_eq]
        have hAform : A = ds ++ (joinGroups (g1 :: gs') ++ P) := by
          rw [hdecomp, hC, List.append_assoc]
        have hnexthead : ∀ x, (joinGroups (g1 :: gs') ++ P).head? = some x →
            Char.isDigit x = false := by
          intro x hx
          have : (joinGroups (g1 :: gs') ++ P).head? = some '.' := by simp [joinGroups]
          rw [this] at hx
          obtain rfl : '.' = x := Option.some_inj.mp hx
          decide
        have htakeA : A.takeWhile Char.isDigit = ds := by
          rw [hAform]
          exact takeWhile_append_of_all _ _ _
            (fun x hx => List.all_eq_true.mp hdsdig x hx) hnexthead
        have hdropA : A.drop ds.length = joinGroups (g1 :: gs') ++ P := by
          conv_lhs => rw [hAform]
          exact List.drop_left _ _
        have hdg : dotGroups (joinGroups (g1 :: gs') ++ P) =
            (joinGroups (g1 :: gs'), P) :=
          dotGroups_join (g1 :: gs') P hgsgood
            (fun x hx => punct_not_dot x (hPp x (head?_mem hx)))
            (fun x hx => punct_not_digit x (hPp x (head?_mem hx)))
        simp only [regexTailMatch, htakeA, hdropA, hdg]
        rw [if_neg (by simp [hdsne]), if_neg (by simp [joinGroups]),
          if_pos (by simpa using List.dropWhile_eq_nil_iff.mpr hPp)]
        rw [hC]
    · rw [if_neg h2] at h; exact Option.noConfusion h

theorem versionCore_regex_imp_code (A r : List Char)
    (h : regexTailMatch A = some r) : versionCandidateCore A = some r := by
  simp only [regexTailMatch] at h
  by_cases h1 : (A.takeWhile Char.isDigit).isEmpty = true
  · rw [if_pos h1] at h; exact Option.noConfusion h
  · rw [if_neg h1] at h
    by_cases h2 : (dotGroups (A.drop (A.takeWhile Char.isDigit).length)).1.isEmpty = true
    · rw [if_pos h2] at h; exact Option.noConfusion h
    · rw [if_neg h2] at h
      by_cases h3 : ((dotGroups (A.drop (A.takeWhile Char.isDigit).length)).2.dropWhile
          isVersionPunct).isEmpty = true
      · rw [if_pos h3] at h
        obtain rfl : A.takeWhile Char.isDigit ++
            (dotGroups (A.drop (A.takeWhile Char.isDigit).length)).1 = r :=
          Option.some_inj.mp h
        obtain ⟨gs, hg1, hgood, hg3⟩ :=
          dotGroups_inv (A.drop (A.takeWhile Char.isDigit).length)
        obtain ⟨g1, gs', rfl⟩ : ∃ g1 gs', gs = g1 :: gs' := by
          cases gs with
          | nil =>
            rw [hg1] at h2
            simp [joinGroups] at h2
          | cons a b => exact ⟨a, b, rfl⟩
        have hrestp : ∀ x ∈ (dotGroups (A.drop (A.takeWhile Char.isDigit).length)).2,
            isVersionPunct x = true := by
          have := List.isEmpty_iff.mp h3
          exact List.dropWhile_eq_nil_iff.mp this
        have hdsdig : (A.takeWhile Char.isDigit).all Char.isDigit = true :=
          List.all_eq_true.mpr (fun x hx => List.mem_takeWhile_imp hx)
        have hAsplit : A = A.takeWhile Char.isDigit ++
            A.drop (A.takeWhile Char.isDigit).length := by
          rw [drop_takeWhile_length]
          exact (List.takeWhile_append_dropWhile Char.isDigit A).symm
        have hAform : A = (A.takeWhile Char.isDigit ++ joinGroups (g1 :: gs')) ++
            (dotGroups (A.drop (A.takeWhile Char.isDigit).length)).2 := by
          conv_lhs => rw [hAsplit]
          rw [List.append_assoc, ← hg1, ← hg3]
        obtain ⟨d, hd, hddig⟩ := joinGroups_getLast_digit (g1 :: gs') hgood (by simp)
        have hlast : ∀ e, (A.takeWhile Char.isDigit ++
            joinGroups (g1 :: gs')).getLast? = some e → isVersionPunct e = false := by
          intro e he
          rw [List.getLast?_append_of_ne_nil _ (joinGroups_ne_nil g1 gs'), hd] at he
          obtain rfl : d = e := Option.some_inj.mp he
          exact digit_not_punct d hddig
        have hdropT : dropTrailingVersionPuncts A =
            A.takeWhile Char.isDigit ++ joinGroups (g1 :: gs') := by
          conv_lhs => rw [hAform]
          exact dropTrailing_append _ _ hrestp hlast
        have hnodotds : ∀ x ∈ A.takeWhile Char.isDigit, ¬(x = '.') :=
          fun x hx => digit_no_dot x (List.mem_takeWhile_imp hx)
        have hnodotgs : ∀ g ∈ g1 :: gs', ∀ x ∈ g, ¬(x = '.') :=
          fun g hg x hx => digit_no_dot x (List.all_eq_true.mp (hgood g hg).2 x hx)
        have hsplitC : splitOnDot (A.takeWhile Char.isDigit ++ joinGroups (g1 :: gs')) =
            A.takeWhile Char.isDigit :: g1 :: gs' :=
          splitOnDot_join (g1 :: gs') (A.takeWhile Char.isDigit) hnodotds hnodotgs
        have hallcond : ((A.takeWhile Char.isDigit :: g1 :: gs').all
            (fun p => !p.isEmpty && p.all Char.isDigit)) = true := by
          rw [List.all_eq_true]
          intro p hp
          rcases List.mem_cons.mp hp with rfl | hp'
          · have hne : (A.takeWhile Char.isDigit).isEmpty = false := by simpa using h1
            simp [hne, hdsdig]
          · obtain ⟨hne, hdig⟩ := hgood p hp'
            have hne' : p.isEmpty = false := by simpa using hne
            simp [hne', hdig]
        simp only [versionCandidateCore, hdropT, hsplitC]
        rw [if_neg (by simp), if_pos hallcond, hg1]
      · rw [if_neg h3] at h; exact Option.noConfusion h

theorem versionCandidateCore_eq_regexTail (A : List Char) :
    versionCandidateCore A = regexTailMatch A := by
  cases hc : versionCandidateCore A with
  | some c => exact (versionCore_code_imp_regex A c hc).symm
  | none =>
    cases hr : regexTailMatch A with
    | none => rfl
    | some r =>
      rw [versionCore_regex_imp_code A r hr] at hc
      exact Option.noConfusion hc

theorem findSome?_congr_on {α β : Type} (l : List α) (f g : α → Option β)
    (h : ∀ x ∈ l, f x = g x) : l.findSome? f = l.findSome? g := by
  induction l with
  | nil => rfl
  | cons x rest ih =>
    rw [List.findSome?_cons, List.findSome?_cons, h x (List.mem_cons_self _ _)]
    cases g x with
    | some v => rfl
    | none => exact ih (fun y hy => h y (List.mem_cons_of_mem _ hy))

theorem dropWhile_no_ws (l : List Char) (h : ∀ c ∈ l, c.isWhitespace = false) :
    l.dropWhile Char.isWhitespace = l := by
  cases l with
  | nil => rfl
  | cons c t =>
    rw [List.dropWhile_cons, if_neg (by simp [h c (List.mem_cons_self _ _)])]

theorem trimChars_no_ws (cs : List Char) (h : ∀ c ∈ cs, c.isWhitespace = false) :
    trimChars cs = cs := by
  unfold trimChars
  rw [dropWhile_no_ws cs h,
    dropWhile_no_ws cs.reverse (fun c hc => h c (List.mem_reverse.mp hc)),
    List.reverse_reverse]

theorem splitWhitespaceAux_no_ws (cs : List Char) :
    ∀ (cur : List Char), (∀ c ∈ cur, c.isWhitespace = false) →
      ∀ t ∈ splitWhitespaceAux cs cur, ∀ c ∈ t, c.isWhitespace = false := by
  induction cs with
  | nil =>
    intro cur hcur t ht
    by_cases he : cur.isEmpty = true
    · simp [splitWhitespaceAux, he] at ht
    · simp only [splitWhitespaceAux, if_neg he, List.mem_singleton] at ht
      subst ht
      exact hcur
  | cons c rest ih =>
    intro cur hcur t ht
    by_cases hc : c.isWhitespace = true
    · by_cases he : cur.isEmpty = true
      · simp only [splitWhitespaceAux, hc, if_pos he] at ht
        exact ih [] (by simp) t ht
      · simp only [splitWhitespaceAux, hc, if_neg he, List.mem_cons] at ht
        cases ht with
        | head => exact hcur
        | tail _ h2 => exact ih [] (by simp) t h2
    · simp only [splitWhitespaceAux, hc] at ht
      refine ih (cur ++ [c]) ?_ t ht
      intro d hd
      rcases List.mem_append.mp hd with hd' | hd'
      · exact hcur d hd'
      · obtain rfl : d = c := by simpa using hd'
        simpa using hc

/-- C9 counterexample: the claim's regex `^v?\d+(\.\d+)+[,)(]*` does not
match the token `vv1.2` (only a single optional leading `v`), so by the
claim the extractor returns nothing; the code's
`trim_start_matches('v')` strips *all* leading `v`s and returns `1.2`. -/
theorem c9_counterexample : parse_version_token "vv1.2".data = some "1.2".data := by
  decide

/-- C9 amended: the version extractor returns, for the first
whitespace-delimited token matching `^v*\d+(\.\d+)+[,)(]*` (whole-token
match, any number of leading `v`s), the token with all leading `v`s and
all trailing `,)(` punctuation stripped, and returns nothing when no
token matches — stated as agreement with an independent left-to-right
matcher for that pattern. -/
theorem c9_version_token (raw : List Char) :
    parse_version_token raw = (splitWhitespaceChars raw).findSome? regexVersionMatch := by
  unfold parse_version_token
  apply findSome?_congr_on
  intro t ht
  have hws : ∀ c ∈ t, c.isWhitespace = false :=
    splitWhitespaceAux_no_ws raw [] (by simp) t ht
  unfold versionTokenCandidate regexVersionMatch
  rw [trimChars_no_ws t hws]
  exact versionCandidateCore_eq_regexTail _

/-! ## Helper lemmas for the parser-closure property -/

theorem splitWordsLoop_end_nonempty (inS inD : Bool) (cur : List Char)
    (acc ts : List (List Char)) (hacc : ∀ t ∈ acc, t ≠ [])
    (heq : splitWordsLoop [] inS inD cur acc = .ok ts) : ∀ t ∈ ts, t ≠ [] := by
  simp only [splitWordsLoop] at heq
  split_ifs at heq with h1 h2
  · obtain rfl : acc = ts := by simpa using heq
    exact hacc
  · obtain rfl : acc ++ [cur] = ts := by simpa using heq
    intro t ht
    rcases List.mem_append.mp ht with ht' | ht'
    · exact hacc t ht'
    · obtain rfl : t = cur := by simpa using ht'
      simpa using h2

theorem splitWordsLoop_tokens_nonempty (n : Nat) :
    ∀ (cs : List Char), cs.length ≤ n → ∀ (inS inD : Bool) (cur : List Char)
      (acc ts : List (List Char)), (∀ t ∈ acc, t ≠ []) →
      splitWordsLoop cs inS inD cur acc = .ok ts → ∀ t ∈ ts, t ≠ [] := by
  induction n with
  | zero =>
    intro cs hcs inS inD cur acc ts hacc heq
    obtain rfl : cs = [] := List.eq_nil_of_length_eq_zero (Nat.le_zero.mp hcs)
    exact splitWordsLoop_end_nonempty inS inD cur acc ts hacc heq
  | succ n ihn =>
    intro cs hcs inS inD cur acc ts hacc heq
    cases cs with
    | nil => exact splitWordsLoop_end_nonempty inS inD cur acc ts hacc heq
    | cons c rest =>
      have hrest : rest.length ≤ n := by simpa using hcs
      unfold splitWordsLoop at heq
      split_ifs at heq with h1 h2 h3 h4 h5
      · cases rest with
        | nil => exact ihn [] (by simp) _ _ _ _ _ hacc heq
        | cons nx rest2 =>
          refine ihn rest2 ?_ _ _ _ _ _ hacc heq
          simp only [List.length_cons] at hrest
          omega
      · exact ihn rest hrest _ _ _ _ _ hacc heq
      · exact ihn rest hrest _ _ _ _ _ hacc heq
      · exact ihn rest hrest _ _ _ _ _ hacc heq
      · refine ihn rest hrest _ _ _ _ _ ?_ heq
        intro t ht
        rcases List.mem_append.mp ht with ht' | ht'
        · exact hacc t ht'
        · obtain rfl : t = cur := by simpa using ht'
          simpa using h5
      · exact ihn rest hrest _ _ _ _ _ hacc heq

theorem split_shell_words_tokens_nonempty (raw : List Char) (ts : List (List Char))
    (h : split_shell_words raw = .ok ts) : ∀ t ∈ ts, t ≠ [] :=
  splitWordsLoop_tokens_nonempty raw.length raw le_rfl false false [] [] ts (by simp) h

theorem splitWordsLoop_plain_consume (t : List Char)
    (hplain : ∀ c ∈ t, plainChar c = true) :
    ∀ (cs cur : List Char) (acc : List (List Char)),
      splitWordsLoop (t ++ cs) false false cur acc =
        splitWordsLoop cs false false (cur ++ t) acc := by
  induction t with
  | nil => intro cs cur acc; simp
  | cons c rest ih =>
    intro cs cur acc
    have hc := hplain c (List.mem_cons_self _ _)
    simp only [plainChar, Bool.and_eq_true, Bool.not_eq_true', decide_eq_false_iff_not] at hc
    obtain ⟨⟨⟨hws, hq1⟩, hq2⟩, hbs⟩ := hc
    show splitWordsLoop (c :: (rest ++ cs)) false false cur acc = _
    conv_lhs => unfold splitWordsLoop
    rw [if_neg (by simp [hbs]), if_neg (by simp [hq1]), if_neg (by simp [hq2]),
      if_neg (by simp [hws])]
    rw [ih (fun d hd => hplain d (List.mem_cons_of_mem _ hd)) cs (cur ++ [c]) acc,
      List.append_assoc]
    rfl

theorem splitWordsLoop_space (cs cur : List Char) (acc : List (List Char)) :
    splitWordsLoop (' ' :: cs) false false cur acc =
      if cur.isEmpty then splitWordsLoop cs false false [] acc
      else splitWordsLoop cs false false [] (acc ++ [cur]) := by
  conv_lhs => unfold splitWordsLoop
  rw [if_neg (by decide), if_neg (by decide), if_neg (by decide), if_pos (by decide)]

theorem splitWordsLoop_join (ts : List (List Char))
    (h : ∀ t ∈ ts, t ≠ [] ∧ ∀ c ∈ t, plainChar c = true) :
    ∀ (t0 : List Char) (acc : List (List Char)), t0 ≠ [] →
      splitWordsLoop (joinSpaced ts) false false t0 acc = .ok (acc ++ t0 :: ts) := by
  induction ts with
  | nil =>
    intro t0 acc ht0
    simp only [joinSpaced, splitWordsLoop]
    rw [if_neg (by decide), if_neg (by simpa using ht0)]
  | cons u rest ih =>
    intro t0 acc ht0
    obtain ⟨hune, huplain⟩ := h u (List.mem_cons_self _ _)
    have hrest : ∀ t ∈ rest, t ≠ [] ∧ ∀ c ∈ t, plainChar c = true :=
      fun t ht => h t (List.mem_cons_of_mem _ ht)
    show splitWordsLoop (' ' :: (u ++ joinSpaced rest)) false false t0 acc = _
    rw [splitWordsLoop_space, if_neg (by simpa using ht0),
      splitWordsLoop_plain_consume u huplain (joinSpaced rest) [] (acc ++ [t0]),
      List.nil_append, ih hrest u (acc ++ [t0]) hune]
    simp

theorem split_shell_words_join (ts : List (List Char))
    (h : ∀ t ∈ ts, t ≠ [] ∧ ∀ c ∈ t, plainChar c = true) (hne : ts ≠ []) :
    split_shell_words (joinTokens ts) = .ok ts := by
  cases ts with
  | nil => exact absurd rfl hne
  | cons t rest =>
    obtain ⟨htne, htplain⟩ := h t (List.mem_cons_self _ _)
    show splitWordsLoop (t ++ joinSpaced rest) false false [] [] = _
    rw [splitWordsLoop_plain_consume t htplain (joinSpaced rest) [] [], List.nil_append,
      splitWordsLoop_join rest (fun u hu => h u (List.mem_cons_of_mem _ hu)) t [] htne]
    rfl

theorem allowed_flags_head (t : List Char) (h : ALLOWED_FLAGS.contains t = true) :
    t.head? = some '-' := by
  rw [List.elem_iff] at h
  simp only [ALLOWED_FLAGS, List.map, List.mem_cons, List.not_mem_nil, or_false] at h
  rcases h with rfl | rfl | rfl | rfl | rfl | rfl | rfl | rfl | rfl | rfl | rfl <;> rfl

theorem disallowed_flags_head (t : List Char) (h : is_disallowed_primary_flag t = true) :
    t.head? = some '-' := by
  rw [is_disallowed_primary_flag, List.elem_iff] at h
  simp only [DISALLOWED_PRIMARY_FLAGS, List.map, List.mem_cons, List.not_mem_nil,
    or_false] at h
  rcases h with rfl | rfl | rfl | rfl | rfl | rfl | rfl | rfl | rfl | rfl | rfl | rfl | rfl |
    rfl | rfl | rfl | rfl <;> rfl

theorem findValueFlagIn_head (l : List (List Char)) (t : List Char) (m : ValueFlagMatch)
    (hl : ∀ o ∈ l, o.head? = some '-')
    (h : findValueFlagIn l t = some m) : t.head? = some '-' := by
  induction l with
  | nil => cases h
  | cons o rest ih =>
    by_cases he : t = o
    · subst he
      exact hl t (List.mem_cons_self _ _)
    · rw [findValueFlagIn, if_neg he] at h
      by_cases hp : (o.isPrefixOf t && decide (o.length < t.length)) = true
      · rw [if_pos hp] at h
        obtain ⟨s, rfl⟩ : ∃ s, o ++ s = t := by
          have := List.isPrefixOf_iff_prefix.mp (Bool.and_elim_left hp)
          exact this
        cases o with
        | nil =>
          have := hl [] (List.mem_cons_self _ _)
          cases this
        | cons oc orest =>
          have := hl (oc :: orest) (List.mem_cons_self _ _)
          obtain rfl : oc = '-' := by simpa using this
          rfl
      · rw [if_neg hp] at h
        exact ih (fun u hu => hl u (List.mem_cons_of_mem _ hu)) h

theorem parseTokensLoop_nil (dest : Option (List Char)) (args : List (List Char)) :
    parseTokensLoop [] dest args = .ok (dest, args) := rfl

theorem parseTokensLoop_cons_fail (token : List Char) (rest : List (List Char))
    (dest : Option (List Char)) (args : List (List Char)) (msg : String)
    (hstep : parseTokenStep token rest dest = .fail msg) :
    parseTokensLoop (token :: rest) dest args = .error msg := by
  cases rest with
  | nil => rw [parseTokensLoop.eq_2, hstep]
  | cons v r2 => rw [parseTokensLoop.eq_3, hstep]

theorem parseTokensLoop_cons_bare (token : List Char) (rest : List (List Char))
    (dest : Option (List Char)) (args : List (List Char))
    (hstep : parseTokenStep token rest dest = .bare) :
    parseTokensLoop (token :: rest) dest args = parseTokensLoop rest dest (args ++ [token]) := by
  cases rest with
  | nil => rw [parseTokensLoop.eq_2, hstep]
  | cons v r2 => rw [parseTokensLoop.eq_3, hstep]

theorem parseTokensLoop_cons_dst (token : List Char) (rest : List (List Char))
    (dest : Option (List Char)) (args : List (List Char))
    (hstep : parseTokenStep token rest dest = .dst) :
    parseTokensLoop (token :: rest) dest args = parseTokensLoop rest (some token) args := by
  cases rest with
  | nil => rw [parseTokensLoop.eq_2, hstep]
  | cons v r2 => rw [parseTokensLoop.eq_3, hstep]

theorem parseTokensLoop_cons_withValue (token value : List Char) (rest2 : List (List Char))
    (dest : Option (List Char)) (args : List (List Char))
    (hstep : parseTokenStep token (value :: rest2) dest = .withValue) :
    parseTokensLoop (token :: value :: rest2) dest args =
      parseTokensLoop rest2 dest (args ++ [token, value]) := by
  rw [parseTokensLoop.eq_3, hstep]

theorem parseTokenStep_trailing (token : List Char) (rest : List (List Char)) (d : List Char) :
    parseTokenStep token rest (some d) =
      .fail ("SSH command has unsupported trailing argument: " ++ String.mk token) := by
  simp [parseTokenStep]

theorem parseTokensLoop_dest_inv (ts : List (List Char)) (d : List Char)
    (args0 : List (List Char)) (out : Option (List Char) × List (List Char))
    (h : parseTokensLoop ts (some d) args0 = .ok out) :
    ts = [] ∧ out = (some d, args0) := by
  cases ts with
  | nil =>
    rw [parseTokensLoop_nil] at h
    exact ⟨rfl, (Except.ok.injEq _ _).mp h.symm⟩
  | cons t rest =>
    rw [parseTokensLoop_cons_fail t rest _ args0 _ (parseTokenStep_trailing t rest d)] at h
    exact Except.noConfusion h


theorem allowed_with_values_heads : ∀ o ∈ ALLOWED_WITH_VALUES, o.head? = some '-' := by
  decide

theorem parseTokenStep_dst (t : List Char) (rest : List (List Char))
    (hd : ¬(t.head? = some '-')) : parseTokenStep t rest none = .dst := by
  unfold parseTokenStep
  rw [if_neg (by simp), if_neg hd]

theorem parseTokenStep_disallowed (t : List Char) (rest : List (List Char))
    (hd : t.head? = some '-') (hdis : is_disallowed_primary_flag t = true) :
    parseTokenStep t rest none = .fail ("SSH option " ++ String.mk t ++ " is not allowed") := by
  unfold parseTokenStep
  rw [if_neg (by simp), if_pos hd, if_pos hdis]

theorem parseTokenStep_bare (t : List Char) (rest : List (List Char))
    (hd : t.head? = some '-') (hdisf : is_disallowed_primary_flag t = false)
    (hall : ALLOWED_FLAGS.contains t = true) :
    parseTokenStep t rest none = .bare := by
  unfold parseTokenStep
  rw [if_neg (by simp), if_pos hd, if_neg (by simp [hdisf]), if_pos hall]

theorem parseTokenStep_unsupported (t : List Char) (rest : List (List Char))
    (hd : t.head? = some '-') (hdisf : is_disallowed_primary_flag t = false)
    (hallf : ALLOWED_FLAGS.contains t = false)
    (hfv : findValueFlagIn ALLOWED_WITH_VALUES t = none) :
    parseTokenStep t rest none = .fail ("Unsupported SSH option: " ++ String.mk t) := by
  unfold parseTokenStep
  rw [if_neg (by simp), if_pos hd, if_neg (by simp [hdisf]), if_neg (by intro hc; rw [hallf] at hc; exact Bool.noConfusion hc), hfv]

theorem parseTokenStep_exact_nil (t o : List Char)
    (hd : t.head? = some '-') (hdisf : is_disallowed_primary_flag t = false)
    (hallf : ALLOWED_FLAGS.contains t = false)
    (hfv : findValueFlagIn ALLOWED_WITH_VALUES t = some (.exact o)) :
    parseTokenStep t [] none = .fail ("SSH option " ++ String.mk o ++ " requires a value") := by
  unfold parseTokenStep
  rw [if_neg (by simp), if_pos hd, if_neg (by simp [hdisf]), if_neg (by intro hc; rw [hallf] at hc; exact Bool.noConfusion hc), hfv]

theorem parseTokenStep_exact_bad (t o v : List Char) (rest2 : List (List Char))
    (hd : t.head? = some '-') (hdisf : is_disallowed_primary_flag t = false)
    (hallf : ALLOWED_FLAGS.contains t = false)
    (hfv : findValueFlagIn ALLOWED_WITH_VALUES t = some (.exact o))
    (hbad : (decide (o = "-o".data) && has_disallowed_o_option v) = true) :
    parseTokenStep t (v :: rest2) none =
      .fail ("SSH option -o " ++ String.mk v ++ " is not allowed") := by
  unfold parseTokenStep
  rw [if_neg (by simp), if_pos hd, if_neg (by simp [hdisf]), if_neg (by intro hc; rw [hallf] at hc; exact Bool.noConfusion hc), hfv]
  exact if_pos hbad

theorem parseTokenStep_exact_good (t o v : List Char) (rest2 : List (List Char))
    (hd : t.head? = some '-') (hdisf : is_disallowed_primary_flag t = false)
    (hallf : ALLOWED_FLAGS.contains t = false)
    (hfv : findValueFlagIn ALLOWED_WITH_VALUES t = some (.exact o))
    (hbadf : (decide (o = "-o".data) && has_disallowed_o_option v) = false) :
    parseTokenStep t (v :: rest2) none = .withValue := by
  unfold parseTokenStep
  rw [if_neg (by simp), if_pos hd, if_neg (by simp [hdisf]), if_neg (by intro hc; rw [hallf] at hc; exact Bool.noConfusion hc), hfv]
  exact if_neg (by simp [hbadf])

theorem parseTokenStep_glued_bad (t o : List Char) (rest : List (List Char))
    (hd : t.head? = some '-') (hdisf : is_disallowed_primary_flag t = false)
    (hallf : ALLOWED_FLAGS.contains t = false)
    (hfv : findValueFlagIn ALLOWED_WITH_VALUES t = some (.glued o))
    (hbad : (decide (o = "-o".data) && has_disallowed_o_option (t.drop o.length)) = true) :
    parseTokenStep t rest none =
      .fail ("SSH option -o " ++ String.mk (t.drop o.length) ++ " is not allowed") := by
  unfold parseTokenStep
  rw [if_neg (by simp), if_pos hd, if_neg (by simp [hdisf]), if_neg (by intro hc; rw [hallf] at hc; exact Bool.noConfusion hc), hfv]
  exact if_pos hbad

theorem parseTokenStep_glued_good (t o : List Char) (rest : List (List Char))
    (hd : t.head? = some '-') (hdisf : is_disallowed_primary_flag t = false)
    (hallf : ALLOWED_FLAGS.contains t = false)
    (hfv : findValueFlagIn ALLOWED_WITH_VALUES t = some (.glued o))
    (hbadf : (decide (o = "-o".data) && has_disallowed_o_option (t.drop o.length)) = false) :
    parseTokenStep t rest none = .bare := by
  unfold parseTokenStep
  rw [if_neg (by simp), if_pos hd, if_neg (by simp [hdisf]), if_neg (by intro hc; rw [hallf] at hc; exact Bool.noConfusion hc), hfv]
  exact if_neg (by simp [hbadf])

theorem parseTokensLoop_inv (n : Nat) :
    ∀ ts : List (List Char), ts.length ≤ n → ∀ args0 d args,
      parseTokensLoop ts none args0 = .ok (some d, args) →
      ∃ newArgs, ts = newArgs ++ [d] ∧ args = args0 ++ newArgs ∧ ArgsOk newArgs ∧
        ¬(d.head? = some '-') := by
  induction n with
  | zero =>
    intro ts hlen args0 d args h
    have hts : ts = [] := List.eq_nil_of_length_eq_zero (Nat.le_zero.mp hlen)
    subst hts
    rw [parseTokensLoop_nil] at h
    simp at h
  | succ n ih =>
    intro ts hlen args0 d args h
    cases ts with
    | nil =>
      rw [parseTokensLoop_nil] at h
      simp at h
    | cons t rest =>
      have hrest : rest.length ≤ n := by simp at hlen; omega
      by_cases hd : t.head? = some '-'
      · by_cases hdis : is_disallowed_primary_flag t = true
        · rw [parseTokensLoop_cons_fail t rest none args0 _
            (parseTokenStep_disallowed t rest hd hdis)] at h
          exact Except.noConfusion h
        · have hdisf : is_disallowed_primary_flag t = false := Bool.eq_false_iff.mpr hdis
          by_cases hall : ALLOWED_FLAGS.contains t = true
          · rw [parseTokensLoop_cons_bare t rest none args0
              (parseTokenStep_bare t rest hd hdisf hall)] at h
            obtain ⟨newArgs, hts, hargs, hok, hdh⟩ := ih rest hrest (args0 ++ [t]) d args h
            exact ⟨t :: newArgs, by simp [hts], by rw [hargs]; simp,
              ArgsOk.bare t newArgs hdisf hall hok, hdh⟩
          · have hallf : ALLOWED_FLAGS.contains t = false := Bool.eq_false_iff.mpr hall
            cases hfv : findValueFlagIn ALLOWED_WITH_VALUES t with
            | none =>
              rw [parseTokensLoop_cons_fail t rest none args0 _
                (parseTokenStep_unsupported t rest hd hdisf hallf hfv)] at h
              exact Except.noConfusion h
            | some vf =>
              cases vf with
              | exact o =>
                cases rest with
                | nil =>
                  rw [parseTokensLoop_cons_fail t [] none args0 _
                    (parseTokenStep_exact_nil t o hd hdisf hallf hfv)] at h
                  exact Except.noConfusion h
                | cons v rest2 =>
                  by_cases hbad : (decide (o = "-o".data) && has_disallowed_o_option v) = true
                  · rw [parseTokensLoop_cons_fail t (v :: rest2) none args0 _
                      (parseTokenStep_exact_bad t o v rest2 hd hdisf hallf hfv hbad)] at h
                    exact Except.noConfusion h
                  · have hbadf : (decide (o = "-o".data) && has_disallowed_o_option v) = false :=
                      Bool.eq_false_iff.mpr hbad
                    rw [parseTokensLoop_cons_withValue t v rest2 none args0
                      (parseTokenStep_exact_good t o v rest2 hd hdisf hallf hfv hbadf)] at h
                    have hrest2 : rest2.length ≤ n := by simp at hlen; omega
                    obtain ⟨newArgs, hts, hargs, hok, hdh⟩ :=
                      ih rest2 hrest2 (args0 ++ [t, v]) d args h
                    refine ⟨t :: v :: newArgs, by simp [hts], by rw [hargs]; simp, ?_, hdh⟩
                    refine ArgsOk.exactVal t v newArgs o hdisf hallf hfv ?_ hok
                    intro hcontra
                    obtain ⟨h1, h2⟩ := hcontra
                    subst h1
                    simp [h2] at hbadf
              | glued o =>
                by_cases hbad :
                    (decide (o = "-o".data) && has_disallowed_o_option (t.drop o.length)) = true
                · rw [parseTokensLoop_cons_fail t rest none args0 _
                    (parseTokenStep_glued_bad t o rest hd hdisf hallf hfv hbad)] at h
                  exact Except.noConfusion h
                · have hbadf :
                      (decide (o = "-o".data) && has_disallowed_o_option (t.drop o.length)) =
                        false := Bool.eq_false_iff.mpr hbad
                  rw [parseTokensLoop_cons_bare t rest none args0
                    (parseTokenStep_glued_good t o rest hd hdisf hallf hfv hbadf)] at h
                  obtain ⟨newArgs, hts, hargs, hok, hdh⟩ := ih rest hrest (args0 ++ [t]) d args h
                  refine ⟨t :: newArgs, by simp [hts], by rw [hargs]; simp, ?_, hdh⟩
                  refine ArgsOk.glued t newArgs o hdisf hallf hfv ?_ hok
                  intro hcontra
                  obtain ⟨h1, h2⟩ := hcontra
                  subst h1
                  simp at h2
                  simp [h2] at hbadf
      · rw [parseTokensLoop_cons_dst t rest none args0 (parseTokenStep_dst t rest hd)] at h
        obtain ⟨hrest0, hout⟩ := parseTokensLoop_dest_inv rest t args0 _ h
        rw [Prod.mk.injEq] at hout
        obtain ⟨hdt, hargs⟩ := hout
        obtain rfl := Option.some.inj hdt
        exact ⟨[], by simp [hrest0], by simp [hargs], ArgsOk.nil, hd⟩

theorem parseTokensLoop_replay (as : List (List Char)) (hok : ArgsOk as) :
    ∀ (d : List Char), ¬(d.head? = some '-') → ∀ args0 : List (List Char),
      parseTokensLoop (as ++ [d]) none args0 = .ok (some d, args0 ++ as) := by
  induction hok with
  | nil =>
    intro d hd args0
    rw [List.nil_append,
      parseTokensLoop_cons_dst d [] none args0 (parseTokenStep_dst d [] hd),
      parseTokensLoop_nil]
    simp
  | bare t rest hdisf hall hrest ih =>
    intro d hd args0
    rw [List.cons_append,
      parseTokensLoop_cons_bare t (rest ++ [d]) none args0
        (parseTokenStep_bare t (rest ++ [d]) (allowed_flags_head t hall) hdisf hall),
      ih d hd (args0 ++ [t])]
    simp
  | exactVal t v rest o hdisf hallf hfv hbadp hrest ih =>
    intro d hd args0
    have hbadf : (decide (o = "-o".data) && has_disallowed_o_option v) = false := by
      cases h2 : has_disallowed_o_option v
      · simp
      · have h1 : ¬(o = "-o".data) := fun h1 => hbadp ⟨h1, h2⟩
        simp [h1]
    have hh : t.head? = some '-' :=
      findValueFlagIn_head ALLOWED_WITH_VALUES t (.exact o) allowed_with_values_heads hfv
    rw [List.cons_append, List.cons_append,
      parseTokensLoop_cons_withValue t v (rest ++ [d]) none args0
        (parseTokenStep_exact_good t o v (rest ++ [d]) hh hdisf hallf hfv hbadf),
      ih d hd (args0 ++ [t, v])]
    simp
  | glued t rest o hdisf hallf hfv hbadp hrest ih =>
    intro d hd args0
    have hbadf : (decide (o = "-o".data) && has_disallowed_o_option (t.drop o.length)) =
        false := by
      cases h2 : has_disallowed_o_option (t.drop o.length)
      · simp
      · have h1 : ¬(o = "-o".data) := fun h1 => hbadp ⟨h1, h2⟩
        simp [h1]
    have hh : t.head? = some '-' :=
      findValueFlagIn_head ALLOWED_WITH_VALUES t (.glued o) allowed_with_values_heads hfv
    rw [List.cons_append,
      parseTokensLoop_cons_bare t (rest ++ [d]) none args0
        (parseTokenStep_glued_good t o (rest ++ [d]) hh hdisf hallf hfv hbadf),
      ih d hd (args0 ++ [t])]
    simp

theorem plainChar_not_ws (c : Char) (h : plainChar c = true) : c.isWhitespace = false := by
  unfold plainChar at h
  simp only [Bool.and_eq_true, Bool.not_eq_eq_eq_not, Bool.not_true] at h
  exact h.1.1.1

theorem parse_ssh_command_args_ok (raw : List Char) (p : DesktopSshParsedCommand)
    (hok : parse_ssh_command raw = .ok p) : ArgsOk p.args := by
  unfold parse_ssh_command at hok
  cases hsp : split_shell_words raw with
  | error e =>
    rw [hsp] at hok
    exact Except.noConfusion hok
  | ok tokens0 =>
    rw [hsp] at hok
    simp only at hok
    generalize (if tokens0.head? = some "ssh".data then tokens0.tail else tokens0) = ts at hok
    split at hok
    · exact Except.noConfusion hok
    · split at hok
      · exact Except.noConfusion hok
      · split at hok
        · exact Except.noConfusion hok
        · rename_i dest? args heq
          split at hok
          · exact Except.noConfusion hok
          · rename_i d
            split at hok
            · exact Except.noConfusion hok
            · have hp : p = ⟨trimChars d, args⟩ := (Except.ok.inj hok).symm
              obtain ⟨newArgs, hts2, hargs, hargsok, hdh⟩ :=
                parseTokensLoop_inv ts.length ts le_rfl [] d args heq
              have hargs2 : args = newArgs := by simpa using hargs
              rw [hp]
              show ArgsOk args
              rw [hargs2]
              exact hargsok

/-- C7 counterexample: the quoted input `ssh 'a b'` is accepted with
destination `a b`, but re-serializing as `ssh a b` (tokens joined by
spaces) re-parses to a trailing-argument error, not to an equal
structure. -/
theorem c7_counterexample :
    parse_ssh_command "ssh 'a b'".data = .ok ⟨"a b".data, []⟩ ∧
    reserialize_ssh_command ⟨"a b".data, []⟩ = "ssh a b".data ∧
    parse_ssh_command "ssh a b".data =
      .error "SSH command has unsupported trailing argument: b" := by
  refine ⟨by decide, by decide, by decide⟩

/-- C7: the spec claims every accepted input re-parses to an equal
structure after re-serialization as `ssh <args...> <destination>`.  That
fails for quoting (see the counterexample), but holds on the fragment the
serializer can faithfully represent: when every emitted token is nonempty
and consists of plain characters (no whitespace, quotes or backslashes)
and the destination does not begin with `-`, re-parsing the
re-serialized command yields exactly the same destination and args. -/
theorem c7_parser_closure (raw : List Char) (p : DesktopSshParsedCommand)
    (hok : parse_ssh_command raw = .ok p)
    (hplain : ∀ t ∈ p.destination :: p.args, ¬(t = []) ∧ ∀ c ∈ t, plainChar c = true)
    (hdh : ¬(p.destination.head? = some '-')) :
    parse_ssh_command (reserialize_ssh_command p) = .ok p := by
  have hargsok : ArgsOk p.args := parse_ssh_command_args_ok raw p hok
  have htokens : ∀ t ∈ "ssh".data :: (p.args ++ [p.destination]),
      t ≠ [] ∧ ∀ c ∈ t, plainChar c = true := by
    intro t ht
    rcases List.mem_cons.mp ht with rfl | ht2
    · exact ⟨by decide, by decide⟩
    · rcases List.mem_append.mp ht2 with ha | hb
      · exact hplain t (List.mem_cons_of_mem _ ha)
      · have heq : t = p.destination := by simpa using hb
        subst heq
        exact hplain _ (List.mem_cons_self _ _)
  have hsplit : split_shell_words (reserialize_ssh_command p) =
      .ok ("ssh".data :: (p.args ++ [p.destination])) := by
    unfold reserialize_ssh_command
    exact split_shell_words_join _ htokens (by simp)
  have hreplay := parseTokensLoop_replay p.args hargsok p.destination hdh []
  rw [List.nil_append] at hreplay
  have htrim : trimChars p.destination = p.destination :=
    trimChars_no_ws _ (fun c hc =>
      plainChar_not_ws c ((hplain p.destination (List.mem_cons_self _ _)).2 c hc))
  have hdestne : ¬(p.destination = []) := (hplain _ (List.mem_cons_self _ _)).1
  unfold parse_ssh_command
  rw [hsplit]
  simp [hreplay, htrim, hdestne]

/-- C7 witness: a concrete accepted command whose tokens are plain, where
the closure theorem applies. -/
theorem c7_parser_closure_witness :
    parse_ssh_command (reserialize_ssh_command ⟨"example.com".data, ["-p".data, "22".data]⟩) =
      .ok ⟨"example.com".data, ["-p".data, "22".data]⟩ :=
  c7_parser_closure "ssh -p 22 example.com".data ⟨"example.com".data, ["-p".data, "22".data]⟩
    (by decide) (by decide) (by decide)

/-- C8 counterexample: the claim says any command containing a
disallowed primary flag as a token before the destination is rejected,
but `-M` in value position is accepted: `ssh -p -M example.com` parses
with `-M` consumed as the value of `-p`. -/
theorem c8_counterexample :
    parse_ssh_command "ssh -p -M example.com".data =
      .ok ⟨"example.com".data, ["-p".data, "-M".data]⟩ := by
  decide

/-- C8: flag invariants, amended.  A disallowed primary flag is rejected
whenever it is examined in flag position (start of an iteration with no
destination yet) — though not when it is consumed as the value of a
preceding value-bearing flag, see the counterexample — and every flag in
the allowed bare set and allowed value-bearing set is accepted in a
minimal command. -/
theorem c8_flag_invariants :
    (∀ t : List Char, is_disallowed_primary_flag t = true →
      ∀ (rest : List (List Char)) (args : List (List Char)),
        parseTokensLoop (t :: rest) none args =
          .error ("SSH option " ++ String.mk t ++ " is not allowed")) ∧
    (∀ f ∈ DISALLOWED_PRIMARY_FLAGS,
      parse_ssh_command (joinTokens ["ssh".data, f, "example.com".data]) =
        .error ("SSH option " ++ String.mk f ++ " is not allowed")) ∧
    (∀ f ∈ ALLOWED_FLAGS,
      parse_ssh_command (joinTokens ["ssh".data, f, "example.com".data]) =
        .ok ⟨"example.com".data, [f]⟩) ∧
    (∀ f ∈ ALLOWED_WITH_VALUES,
      parse_ssh_command (joinTokens ["ssh".data, f, "22".data, "example.com".data]) =
        .ok ⟨"example.com".data, [f, "22".data]⟩) := by
  refine ⟨?_, by decide, by decide, by decide⟩
  intro t hdis rest args
  exact parseTokensLoop_cons_fail t rest none args _
    (parseTokenStep_disallowed t rest (disallowed_flags_head t hdis) hdis)

/-- C8 witness: the disallowed flag `-M` in flag position is rejected. -/
theorem c8_flag_invariants_witness :
    parseTokensLoop ["-M".data, "example.com".data] none [] =
      .error ("SSH option " ++ String.mk "-M".data ++ " is not allowed") :=
  c8_flag_invariants.1 "-M".data (by decide) ["example.com".data] []
